import Mathlib

/-!
# babylon-scriptorium — verification of the specification against the source

Shallow embedding of the parts of the `babylon-scriptorium` TypeScript
repository that the checked claims are about:

* the shell-command safety layer and the terminal / git tools
  (`src/tools/definitions.ts`),
* the path-safety guards of the file tools (`src/tools/definitions.ts`),
* the output parsers (`src/workflow/parsers.ts`),
* the event bus (`src/events/EventBus.ts`, a thin wrapper around Node's
  `EventEmitter`),
* the agent runtime turn loop (`src/agents/AgentRuntime.ts`),
* the workflow engine entry point, the duplicate-setup filter, the
  file-scope overlap check and the subtask phase of `runDecomposition`
  (`src/workflow/WorkflowEngine.ts`),
* the task store (`src/persistence/TaskManager.ts`).

JavaScript strings are modelled as `List Char` / `String`; the few JS
regular expressions the code uses are embedded through a small explicit
matcher (`matchSeq`) that implements exactly the constructs those
regexes use (literals, character classes, `\b`, `\s+`, `.*`,
alternation).  External effects (the filesystem, child processes, the
LLM provider, nested workflow recursion) are oracles passed in as
function arguments, and every observable action is recorded in an
explicit trace so that "never executed" / "no I/O" claims are statable.
-/

namespace Babylon

/-! ## JavaScript character and string primitives -/

/-- JS word character, the `\w` / `\b` alphabet: `[A-Za-z0-9_]`. -/
def isWordChar (c : Char) : Bool :=
  (97 ≤ c.toNat && c.toNat ≤ 122) || (65 ≤ c.toNat && c.toNat ≤ 90) ||
    (48 ≤ c.toNat && c.toNat ≤ 57) || c = '_'

/-- JS whitespace (`\s`, `String.prototype.trim`): space, tab, LF, CR,
vertical tab, form feed, NBSP, BOM.  (The full JS set also has the other
Unicode space separators; the repository only ever feeds ASCII here.) -/
def isJsSpace (c : Char) : Bool :=
  c = ' ' || c = '\t' || c = '\n' || c = '\r' || c.toNat = 11 ||
    c.toNat = 12 || c.toNat = 0xa0 || c.toNat = 0xfeff

/-- JS regex `.` (without the `s` flag): any char except line terminators. -/
def isDotChar (c : Char) : Bool :=
  !(c = '\n' || c = '\r' || c.toNat = 0x2028 || c.toNat = 0x2029)

/-- ASCII branch of `String.prototype.toLowerCase` (the inputs involved
are ASCII). -/
def jsLowerChar (c : Char) : Char :=
  if 65 ≤ c.toNat && c.toNat ≤ 90 then Char.ofNat (c.toNat + 32) else c

def jsLower (l : List Char) : List Char := l.map jsLowerChar

/-- `String.prototype.trim` on a char list. -/
def jsTrim (l : List Char) : List Char :=
  ((l.dropWhile isJsSpace).reverse.dropWhile isJsSpace).reverse

def jsLowerStr (s : String) : String := String.mk (jsLower s.toList)

def jsTrimStr (s : String) : String := String.mk (jsTrim s.toList)

/-- Substring test, `String.prototype.includes`. -/
def containsSub : List Char → List Char → Bool
  | _, [] => true
  | [], _ :: _ => false
  | x :: xs, needle => needle.isPrefixOf (x :: xs) || containsSub xs needle

def strIncludes (hay needle : String) : Bool :=
  containsSub hay.toList needle.toList

/-- `String.startsWith`, structurally (so it evaluates in the kernel). -/
def strStartsWith (s pre : String) : Bool := pre.toList.isPrefixOf s.toList

/-- `String.endsWith`, structurally. -/
def strEndsWith (s suf : String) : Bool :=
  suf.toList.reverse.isPrefixOf s.toList.reverse

def splitOnCharAux (c : Char) (acc : List Char) : List Char → List (List Char)
  | [] => [acc.reverse]
  | x :: rest =>
    if x = c then acc.reverse :: splitOnCharAux c [] rest
    else splitOnCharAux c (x :: acc) rest

/-- `s.split("/")` / `String.splitOn "/"`, structurally. -/
def splitSlash (s : String) : List String :=
  (splitOnCharAux '/' [] s.toList).map String.mk

/-- `List.intercalate` for strings, structurally. -/
def intercalateStr (sep : String) : List String → String
  | [] => ""
  | [x] => x
  | x :: y :: rest => x ++ sep ++ intercalateStr sep (y :: rest)

/-- Helper fact used by termination arguments below. -/
def dropWhile_length_le {α : Type} (p : α → Bool) :
    ∀ l : List α, (l.dropWhile p).length ≤ l.length
  | [] => le_refl _
  | x :: xs => by
    simp only [List.dropWhile]
    split
    · exact le_trans (dropWhile_length_le p xs) (Nat.le_succ _)
    · exact le_refl _

/-- `str.split(/\s+/)`: split on runs of whitespace.  Like JS, a leading
whitespace run produces a leading empty element, and splitting the empty
string yields `[""]`.  Structural fuel (each step consumes at least one
character, so `length + 1` always suffices). -/
def jsSplitWsAux : Nat → List Char → List Char → List (List Char)
  | 0, acc, _ => [acc.reverse]
  | _ + 1, acc, [] => [acc.reverse]
  | f + 1, acc, c :: rest =>
    if isJsSpace c then acc.reverse :: jsSplitWsAux f [] (rest.dropWhile isJsSpace)
    else jsSplitWsAux f (c :: acc) rest

def jsSplitWs (s : String) : List String :=
  (jsSplitWsAux (s.toList.length + 1) [] s.toList).map String.mk

/-- `content.split(/\r?\n/)`. -/
def jsSplitLinesAux : List Char → List Char → List (List Char)
  | acc, [] => [acc.reverse]
  | acc, '\r' :: '\n' :: rest => acc.reverse :: jsSplitLinesAux [] rest
  | acc, '\n' :: rest => acc.reverse :: jsSplitLinesAux [] rest
  | acc, c :: rest => jsSplitLinesAux (c :: acc) rest

def jsSplitLines (s : String) : List String :=
  (jsSplitLinesAux [] s.toList).map String.mk

/-- `[a, b, c].filter(Boolean).join(sep)` for strings: drop the empty
("falsy") entries and join the rest. -/
def joinNonEmpty (sep : String) (parts : List String) : String :=
  intercalateStr sep (parts.filter (fun p => p ≠ ""))

/-! ## A tiny matcher for the JS regexes used by the tool layer

The safety blocklist of `src/tools/definitions.ts` uses only literals,
`\b`, `\s+`, `.*`, small character sets and (in the fork-bomb pattern,
via its unescaped `|`) top-level alternation.  `matchSeq` implements
exactly these, with explicit fuel so that every definition is a plain
structural recursion. -/

inductive CharCls
  | space
  | dot
deriving DecidableEq

def clsMatch : CharCls → Char → Bool
  | .space, c => isJsSpace c
  | .dot, c => isDotChar c

inductive RElem
  | lit (c : Char)
  | oneOf (cs : List Char)
  | cls (k : CharCls)
  | star (k : CharCls)
  | wb
deriving DecidableEq

def wordOpt : Option Char → Bool
  | none => false
  | some c => isWordChar c

/-- `\b`: the word-ness of the previous and the next character differ. -/
def atBoundary (prev : Option Char) (s : List Char) : Bool :=
  wordOpt prev != wordOpt s.head?

/-- Match a pattern sequence at the start of `s`; `prev` is the character
just before the current position (for `\b`).  Backtracking search, so it
returns true iff some match exists — which is what `RegExp.test` asks.
Any path consumes a pattern element or an input character at every step,
so fuel `ps.length + s.length + 1` is always sufficient. -/
def matchSeq : Nat → List RElem → Option Char → List Char → Bool
  | 0, _, _, _ => false
  | _ + 1, [], _, _ => true
  | f + 1, .lit c :: ps, _, s =>
    match s with
    | [] => false
    | x :: xs => x = c && matchSeq f ps (some x) xs
  | f + 1, .oneOf cs :: ps, _, s =>
    match s with
    | [] => false
    | x :: xs => cs.contains x && matchSeq f ps (some x) xs
  | f + 1, .cls k :: ps, _, s =>
    match s with
    | [] => false
    | x :: xs => clsMatch k x && matchSeq f ps (some x) xs
  | f + 1, .star k :: ps, prev, s =>
    matchSeq f ps prev s ||
      match s with
      | [] => false
      | x :: xs => clsMatch k x && matchSeq f (.star k :: ps) (some x) xs
  | f + 1, .wb :: ps, prev, s =>
    atBoundary prev s && matchSeq f ps prev s

/-- Try the pattern at every start position (unanchored `RegExp.test`). -/
def searchSeq (ps : List RElem) : Option Char → List Char → Bool
  | prev, s =>
    matchSeq (ps.length + s.length + 1) ps prev s ||
      match s with
      | [] => false
      | x :: xs => searchSeq ps (some x) xs

/-- One JS regex: its `source` text and its top-level alternatives. -/
structure JsRegex where
  source : String
  alts : List (List RElem)

def regexTest (r : JsRegex) (s : String) : Bool :=
  r.alts.any fun ps => searchSeq ps none s.toList

/-- Literal run helper for building patterns. -/
def lits (s : String) : List RElem := s.toList.map RElem.lit

/-- `\s+` as pattern elements. -/
def wsPlus : List RElem := [.cls .space, .star .space]

/-! ## The safety blocklist (`src/tools/definitions.ts`, `BLOCKED_COMMANDS`)

Each entry mirrors one JS regex literal; `source` is the regex's
`source` property, used in the rejection message.  Note the last regex,
`/\b:(){ :|:& };:/`: in JS its unescaped `|` is a top-level alternation,
so it really is the disjunction of `\b:(){ :` (the `()` group matches
the empty string) and `:& };:` — both alternatives are embedded as
written. -/

def blockedRmRf : JsRegex :=
  { source := "\\brm\\s+-rf\\s+[/~]",
    alts := [[.wb] ++ lits "rm" ++ wsPlus ++ lits "-rf" ++ wsPlus ++ [.oneOf ['/', '~']]] }

def blockedGitPushForce : JsRegex :=
  { source := "\\bgit\\s+push\\s+--force",
    alts := [[.wb] ++ lits "git" ++ wsPlus ++ lits "push" ++ wsPlus ++ lits "--force"] }

def blockedGitPushF : JsRegex :=
  { source := "\\bgit\\s+push\\s+-f\\b",
    alts := [[.wb] ++ lits "git" ++ wsPlus ++ lits "push" ++ wsPlus ++ lits "-f" ++ [.wb]] }

def blockedNpmPublish : JsRegex :=
  { source := "\\bnpm\\s+publish\\b",
    alts := [[.wb] ++ lits "npm" ++ wsPlus ++ lits "publish" ++ [.wb]] }

def blockedNpxPublish : JsRegex :=
  { source := "\\bnpx\\s+.*publish",
    alts := [[.wb] ++ lits "npx" ++ wsPlus ++ [.star .dot] ++ lits "publish"] }

def blockedSudoRm : JsRegex :=
  { source := "\\bsudo\\s+rm\\b",
    alts := [[.wb] ++ lits "sudo" ++ wsPlus ++ lits "rm" ++ [.wb]] }

def blockedMkfs : JsRegex :=
  { source := "\\bmkfs\\b",
    alts := [[.wb] ++ lits "mkfs" ++ [.wb]] }

def blockedDdIf : JsRegex :=
  { source := "\\bdd\\s+if=",
    alts := [[.wb] ++ lits "dd" ++ wsPlus ++ lits "if="] }

def blockedForkBomb : JsRegex :=
  { source := "\\b:()\x7b :|:& \x7d;:",
    alts := [[.wb] ++ lits ":\x7b :", lits ":& \x7d;:"] }

def BLOCKED_COMMANDS : List JsRegex :=
  [blockedRmRf, blockedGitPushForce, blockedGitPushF, blockedNpmPublish,
   blockedNpxPublish, blockedSudoRm, blockedMkfs, blockedDdIf, blockedForkBomb]

/-- `isCommandBlocked`: the first matching pattern yields the message. -/
def isCommandBlocked (command : String) : Option String :=
  (BLOCKED_COMMANDS.find? fun r => regexTest r command).map
    fun r => "Command blocked by safety policy: matches " ++ r.source

/-- `NON_TERMINATING_PATTERNS`. -/
def NON_TERMINATING_PATTERNS : List JsRegex :=
  [{ source := "\\bnpm\\s+run\\s+dev\\b",
     alts := [[.wb] ++ lits "npm" ++ wsPlus ++ lits "run" ++ wsPlus ++ lits "dev" ++ [.wb]] },
   { source := "\\bnpm\\s+start\\b",
     alts := [[.wb] ++ lits "npm" ++ wsPlus ++ lits "start" ++ [.wb]] },
   { source := "\\byarn\\s+dev\\b",
     alts := [[.wb] ++ lits "yarn" ++ wsPlus ++ lits "dev" ++ [.wb]] },
   { source := "\\byarn\\s+start\\b",
     alts := [[.wb] ++ lits "yarn" ++ wsPlus ++ lits "start" ++ [.wb]] },
   { source := "\\bnext\\s+dev\\b",
     alts := [[.wb] ++ lits "next" ++ wsPlus ++ lits "dev" ++ [.wb]] },
   { source := "\\bvite\\b",
     alts := [[.wb] ++ lits "vite" ++ [.wb]] },
   { source := "\\bnpm\\s+run\\s+watch\\b",
     alts := [[.wb] ++ lits "npm" ++ wsPlus ++ lits "run" ++ wsPlus ++ lits "watch" ++ [.wb]] },
   { source := "\\byarn\\s+watch\\b",
     alts := [[.wb] ++ lits "yarn" ++ wsPlus ++ lits "watch" ++ [.wb]] },
   { source := "\\btsx\\s+watch\\b",
     alts := [[.wb] ++ lits "tsx" ++ wsPlus ++ lits "watch" ++ [.wb]] },
   { source := "\\bts-node-dev\\b",
     alts := [[.wb] ++ lits "ts-node-dev" ++ [.wb]] },
   { source := "\\bnodemon\\b",
     alts := [[.wb] ++ lits "nodemon" ++ [.wb]] },
   { source := "\\bhttp-server\\b",
     alts := [[.wb] ++ lits "http-server" ++ [.wb]] },
   { source := "\\bnpx\\s+http-server\\b",
     alts := [[.wb] ++ lits "npx" ++ wsPlus ++ lits "http-server" ++ [.wb]] }]

def isCommandNonTerminating (command : String) : Option String :=
  if NON_TERMINATING_PATTERNS.any (fun r => regexTest r command) then
    some "This command typically does not exit. Use a one-off command instead (e.g. npm run build, npm test)."
  else none

/-! ## POSIX path resolution (`node:path` — `resolve`, `relative`)

The tools run on one filesystem with an absolute working directory (the
`ToolContext` contract), so `resolve` on POSIX reduces to: absolute
argument wins, otherwise join onto the base, then normalize (`.`/empty
segments dropped, `..` pops, `..` above the root is discarded). -/

def normSegsAux : List String → List String → List String
  | acc, [] => acc.reverse
  | acc, seg :: rest =>
    if seg = "" || seg = "." then normSegsAux acc rest
    else if seg = ".." then
      match acc with
      | [] => normSegsAux [] rest
      | _ :: accTail => normSegsAux accTail rest
    else normSegsAux (seg :: acc) rest

def pathSegs (p : String) : List String := normSegsAux [] (splitSlash p)

/-- `path.resolve(base, p)` for an absolute `base`. -/
def resolveAbs (base p : String) : String :=
  let segs := if strStartsWith p "/" then pathSegs p
    else normSegsAux [] (splitSlash base ++ splitSlash p)
  "/" ++ intercalateStr "/" segs

/-- `path.resolve(wd)` — normalize the (absolute) working directory. -/
def resolveWd (wd : String) : String := resolveAbs wd ""

def relSegs : List String → List String → List String
  | f :: fs, t :: ts =>
    if f = t then relSegs fs ts
    else List.replicate (fs.length + 1) ".." ++ (t :: ts)
  | [], ts => ts
  | fs, [] => List.replicate fs.length ".."

/-- `path.relative(f, t)` for absolute, already-resolved paths. -/
def pathRelative (f t : String) : String :=
  intercalateStr "/" (relSegs (pathSegs f) (pathSegs t))

def RESTRICTED_DIR : String := ".babylon"

/-- `isPathUnderRestricted` (`src/tools/definitions.ts`): backslashes are
turned into slashes, one leading `./` is stripped, then the result must
not be `.babylon` or be under `.babylon/`. -/
def isPathUnderRestricted (relativePath : String) : Bool :=
  let slashes := String.mk (relativePath.toList.map fun c => if c = '\\' then '/' else c)
  let normalized := if strStartsWith slashes "./" then String.mk (slashes.toList.drop 2) else slashes
  normalized = RESTRICTED_DIR || strStartsWith normalized (RESTRICTED_DIR ++ "/")

/-- The guard both file-tool checks implement: the relative path escapes
the root, or it reaches into the reserved directory. -/
def pathGuardRejects (rel : String) : Bool :=
  strStartsWith rel ".." || isPathUnderRestricted rel

/-! ## Tool result shape and output truncation -/

structure ToolExecutionResult where
  content : String
  isError : Bool
deriving DecidableEq

def MAX_TOOL_OUTPUT : Nat := 30000

/-- `truncateOutput`: keep a prefix and a suffix of `MAX_TOOL_OUTPUT/2`
characters around a marker. -/
def truncateOutput (output : String) : String :=
  if output.length ≤ MAX_TOOL_OUTPUT then output
  else
    let half := MAX_TOOL_OUTPUT / 2
    let omitted := output.length - MAX_TOOL_OUTPUT
    String.mk (output.toList.take half) ++ "\n\n[… truncated " ++ toString omitted ++
      " characters …]\n\n" ++ String.mk (output.toList.drop (output.length - half))

/-! ## `run_terminal_command` and `git_operations`

The child process is an oracle `shell`.  Each tool returns the
`ToolExecutionResult` (or the thrown `ToolExecutionError` message, as
`Except.error`) together with the list of `(command, cwd)` pairs
actually handed to the spawner — the "was a process spawned" trace. -/

structure ShellOutcome where
  exitCode : Nat
  stdout : String
  stderr : String

inductive ShellRun
  | ok (o : ShellOutcome)
  | thrown (msg : String)

/-- `stdout:`/`stderr:`/`exit code:` block assembly, `filter(Boolean)`. -/
def terminalRawOut (o : ShellOutcome) : String :=
  joinNonEmpty "\n\n"
    [if o.stdout ≠ "" then "stdout:\n" ++ o.stdout else "",
     if o.stderr ≠ "" then "stderr:\n" ++ o.stderr else "",
     "exit code: " ++ toString o.exitCode]

/-- The interactive-prompt sniff, regex
`\(y\/n\)|\(Y\/n\)|Continue\?|proceed\?|\[y\/N\]|>\s*$` with flags `im`:
case-insensitive substring checks plus "some line ends in `>` followed
by whitespace". -/
def lineEndsInGt : List Char → Bool
  | [] => false
  | '>' :: rest =>
    ((rest.dropWhile isJsSpace).isEmpty || (rest.takeWhile isJsSpace).contains '\n') ||
      lineEndsInGt rest
  | _ :: rest => lineEndsInGt rest

def looksLikePrompt (s : String) : Bool :=
  let low := jsLower s.toList
  containsSub low "(y/n)".toList || containsSub low "continue?".toList ||
    containsSub low "proceed?".toList || containsSub low "[y/n]".toList ||
    lineEndsInGt s.toList

def promptHint : String :=
  "\n\n[Command was run with no stdin; it may have been waiting for input. Retry with piped input (e.g. yes | cmd or echo y | cmd) or use -y/--yes if available.]"

/-- `runTerminalCommandTool.execute`.  `aborted` models
`context.abortSignal?.aborted` at the time the spawn failed. -/
def runTerminalCommand (shell : String → ShellRun) (aborted : Bool) (wd : String)
    (command : String) (cwdArg : Option String) :
    Except String ToolExecutionResult × List (String × String) :=
  match isCommandBlocked command with
  | some blocked => (.ok ⟨blocked, true⟩, [])
  | none =>
    match isCommandNonTerminating command with
    | some nonTerminating => (.ok ⟨nonTerminating, true⟩, [])
    | none =>
      let cwd := match cwdArg with
        | some c => resolveAbs (resolveWd wd) c
        | none => wd
      match shell command with
      | .ok o =>
        let rawOut := terminalRawOut o
        let hint := if looksLikePrompt rawOut then promptHint else ""
        (.ok ⟨truncateOutput (rawOut ++ hint), o.exitCode ≠ 0⟩, [(command, cwd)])
      | .thrown msg =>
        if aborted then (.ok ⟨"Command cancelled (aborted by user).", true⟩, [(command, cwd)])
        else (.error ("Command failed: " ++ msg), [(command, cwd)])

/-! ## JSON (`JSON.parse`)

The parsers and `complete_task` validation all go through `JSON.parse`.
`Json` is the value model (numbers as exact rationals — the payloads the
system handles stay well inside the float-exact range, and the only
arithmetic done on them is comparison) and `jsonParse` implements the
standard JSON grammar: on any deviation it returns `none`, matching the
`SyntaxError` throw.  `\uXXXX` escapes map the code unit directly
(surrogate pairing is not reconstructed; no input in this development
uses it). -/

/-- A JSON number literal, kept exact: `num / den` with `den` a positive
power of ten (the sign lives in `num`).  Two parses of the same literal
are structurally identical; `toRat` gives the numeric value. -/
structure JNum where
  num : Int
  den : Nat
deriving DecidableEq

def JNum.toRat (q : JNum) : Rat := (q.num : Rat) / (q.den : Rat)

inductive Json
  | null
  | bool (b : Bool)
  | num (q : JNum)
  | str (s : String)
  | arr (xs : List Json)
  | obj (kvs : List (String × Json))

def jsonWsChar (c : Char) : Bool :=
  c = ' ' || c = '\t' || c = '\n' || c = '\r'

def hexVal (c : Char) : Option Nat :=
  if 48 ≤ c.toNat && c.toNat ≤ 57 then some (c.toNat - 48)
  else if 97 ≤ c.toNat && c.toNat ≤ 102 then some (c.toNat - 87)
  else if 65 ≤ c.toNat && c.toNat ≤ 70 then some (c.toNat - 55)
  else none

/-- JSON string body (after the opening quote). -/
def parseJsonStringAux : List Char → List Char → Option (String × List Char)
  | _acc, [] => none
  | acc, '"' :: rest => some (String.mk acc.reverse, rest)
  | acc, '\\' :: esc =>
    match esc with
    | '"' :: rest => parseJsonStringAux ('"' :: acc) rest
    | '\\' :: rest => parseJsonStringAux ('\\' :: acc) rest
    | '/' :: rest => parseJsonStringAux ('/' :: acc) rest
    | 'b' :: rest => parseJsonStringAux (Char.ofNat 8 :: acc) rest
    | 'f' :: rest => parseJsonStringAux (Char.ofNat 12 :: acc) rest
    | 'n' :: rest => parseJsonStringAux ('\n' :: acc) rest
    | 'r' :: rest => parseJsonStringAux ('\r' :: acc) rest
    | 't' :: rest => parseJsonStringAux ('\t' :: acc) rest
    | 'u' :: h1 :: h2 :: h3 :: h4 :: rest =>
      match hexVal h1, hexVal h2, hexVal h3, hexVal h4 with
      | some a, some b, some c, some d =>
        parseJsonStringAux (Char.ofNat (((a * 16 + b) * 16 + c) * 16 + d) :: acc) rest
      | _, _, _, _ => none
    | _ => none
  | acc, c :: rest =>
    if c.toNat < 32 then none else parseJsonStringAux (c :: acc) rest

def takeDigits (l : List Char) : List Char × List Char :=
  (l.takeWhile (fun c => 48 ≤ c.toNat && c.toNat ≤ 57),
   l.dropWhile (fun c => 48 ≤ c.toNat && c.toNat ≤ 57))

def natFromDigits (ds : List Char) : Nat :=
  ds.foldl (fun acc c => acc * 10 + (c.toNat - 48)) 0

/-- JSON number: `-? (0 | [1-9][0-9]*) (\.[0-9]+)? ([eE][+-]?[0-9]+)?`,
as an exact rational. -/
def parseJsonNumber (s : List Char) : Option (Json × List Char) :=
  let (neg, s1) := match s with
    | '-' :: r => (true, r)
    | _ => (false, s)
  match takeDigits s1 with
  | ([], _) => none
  | (ds, rest) =>
    if 1 < ds.length && ds.head? = some '0' then none
    else
      let fracStep : Option (List Char × List Char) := match rest with
        | '.' :: r =>
          match takeDigits r with
          | ([], _) => none
          | (fs, r2) => some (fs, r2)
        | _ => some ([], rest)
      match fracStep with
      | none => none
      | some (fs, rest2) =>
        let expStep : Option (Bool × List Char × List Char) := match rest2 with
          | 'e' :: r | 'E' :: r =>
            let (eneg, r1) := match r with
              | '+' :: rr => (false, rr)
              | '-' :: rr => (true, rr)
              | _ => (false, r)
            match takeDigits r1 with
            | ([], _) => none
            | (es, r2) => some (eneg, es, r2)
          | _ => some (false, [], rest2)
        match expStep with
        | none => none
        | some (eneg, es, rest3) =>
          let mantissa : Nat := natFromDigits (ds ++ fs)
          let e : Nat := natFromDigits es
          let scaled : JNum :=
            if es = [] then ⟨mantissa, 10 ^ fs.length⟩
            else if eneg then ⟨mantissa, 10 ^ fs.length * 10 ^ e⟩
            else ⟨(mantissa : Int) * ((10 : Int) ^ e), 10 ^ fs.length⟩
          some (.num (if neg then ⟨-scaled.num, scaled.den⟩ else scaled), rest3)

mutual

def parseJsonValue : Nat → List Char → Option (Json × List Char)
  | 0, _ => none
  | f + 1, s =>
    let s1 := s.dropWhile jsonWsChar
    match s1 with
    | 'n' :: 'u' :: 'l' :: 'l' :: rest => some (.null, rest)
    | 't' :: 'r' :: 'u' :: 'e' :: rest => some (.bool true, rest)
    | 'f' :: 'a' :: 'l' :: 's' :: 'e' :: rest => some (.bool false, rest)
    | '"' :: rest =>
      match parseJsonStringAux [] rest with
      | some (str, r) => some (.str str, r)
      | none => none
    | '[' :: rest =>
      match rest.dropWhile jsonWsChar with
      | ']' :: r => some (.arr [], r)
      | _ =>
        match parseJsonElems f [] rest with
        | some (xs, r) => some (.arr xs, r)
        | none => none
    | '\x7b' :: rest =>
      match rest.dropWhile jsonWsChar with
      | '\x7d' :: r => some (.obj [], r)
      | _ =>
        match parseJsonMembers f [] rest with
        | some (kvs, r) => some (.obj kvs, r)
        | none => none
    | _ => parseJsonNumber s1

def parseJsonElems : Nat → List Json → List Char → Option (List Json × List Char)
  | 0, _, _ => none
  | f + 1, acc, s =>
    match parseJsonValue f s with
    | none => none
    | some (v, rest) =>
      match rest.dropWhile jsonWsChar with
      | ',' :: r => parseJsonElems f (v :: acc) r
      | ']' :: r => some ((v :: acc).reverse, r)
      | _ => none

def parseJsonMembers : Nat → List (String × Json) → List Char →
    Option (List (String × Json) × List Char)
  | 0, _, _ => none
  | f + 1, acc, s =>
    match s.dropWhile jsonWsChar with
    | '"' :: kr =>
      match parseJsonStringAux [] kr with
      | none => none
      | some (k, rest) =>
        match rest.dropWhile jsonWsChar with
        | ':' :: vr =>
          match parseJsonValue f vr with
          | none => none
          | some (v, vrest) =>
            match vrest.dropWhile jsonWsChar with
            | ',' :: r => parseJsonMembers f ((k, v) :: acc) r
            | '\x7d' :: r => some (((k, v) :: acc).reverse, r)
            | _ => none
        | _ => none
    | _ => none

end

/-- `JSON.parse`: one value, then only whitespace.  Every recursive call
consumes input, so `length + 16` fuel never runs out on real input. -/
def jsonParse (s : String) : Option Json :=
  match parseJsonValue (s.length + 16) s.toList with
  | some (v, rest) => if (rest.dropWhile jsonWsChar).isEmpty then some v else none
  | none => none

/-- JS property read on a parsed object: duplicate keys resolve to the
last occurrence, any other value has no properties. -/
def lookupLast (kvs : List (String × Json)) (k : String) : Option Json :=
  (kvs.reverse.find? fun kv => kv.1 = k).map fun kv => kv.2

/-! ## Output parsers (`src/workflow/parsers.ts`)

The TS functions read `result.artifact.content`; the embeddings take
that content string directly.  Fields that the TS merely casts
(`as string`, `as number[]`) are kept as raw `Json` values, since the
cast does not inspect them. -/

/-- `DEFAULT_COMPLEXITY = 0.5`. -/
def DEFAULT_COMPLEXITY : JNum := ⟨5, 10⟩

structure AnalyzerOutputM where
  complexity : JNum
  summary : Json
  affectedFiles : Json
  recommendedApproach : Json

/-- The `catch` branch of `parseAnalyzerOutput`: default complexity and
a content-slice summary. -/
def analyzerFallback (content : String) : AnalyzerOutputM :=
  { complexity := DEFAULT_COMPLEXITY,
    summary := .str (String.mk (content.toList.take 500)),
    affectedFiles := .arr [],
    recommendedApproach := .str "" }

/-- `parseAnalyzerOutput`.  A `null` top level makes the property reads
throw, which the surrounding `try` turns into the same fallback as a
parse failure. -/
def parseAnalyzerOutput (content : String) : AnalyzerOutputM :=
  match jsonParse content with
  | none => analyzerFallback content
  | some .null => analyzerFallback content
  | some j =>
    let get := fun (k : String) => match j with
      | .obj kvs => lookupLast kvs k
      | _ => none
    let complexity : JNum :=
      match get "complexity" with
      | some (.num q) =>
        if 0 ≤ q.num ∧ q.num ≤ (q.den : Int) then q else DEFAULT_COMPLEXITY
      | some (.str raw) =>
        if raw = "simple" then ⟨25, 100⟩
        else if raw = "medium" then ⟨5, 10⟩
        else if raw = "complex" then ⟨85, 100⟩
        else DEFAULT_COMPLEXITY
      | _ => DEFAULT_COMPLEXITY
    let orElse := fun (v : Option Json) (dflt : Json) => match v with
      | none => dflt
      | some .null => dflt
      | some w => w
    { complexity := complexity,
      summary := orElse (get "summary") (.str content),
      affectedFiles := orElse (get "affectedFiles") (.arr []),
      recommendedApproach := orElse (get "recommendedApproach") (.str "") }

inductive PlannerParsed
  | parsed (j : Json)
  | defaultSpec (content : String)

/-- `parsePlannerOutput`: the parsed object is returned as-is when its
`type` is `"spec"` or `"decomposition"`; everything else (including any
parse failure) yields the default spec built from the raw content. -/
def parsePlannerOutput (content : String) : PlannerParsed :=
  match jsonParse content with
  | some (.obj kvs) =>
    match lookupLast kvs "type" with
    | some (.str t) =>
      if t = "decomposition" || t = "spec" then .parsed (.obj kvs)
      else .defaultSpec content
    | _ => .defaultSpec content
  | _ => .defaultSpec content

/-- `raw.replace(/^```(?:json)?\s*/i, "")`. -/
def stripLeadFence (l : List Char) : List Char :=
  match l with
  | '`' :: '`' :: '`' :: rest =>
    let rest2 := match rest with
      | a :: b :: c :: d :: tail =>
        if jsLowerChar a = 'j' && jsLowerChar b = 's' && jsLowerChar c = 'o' &&
            jsLowerChar d = 'n' then tail
        else rest
      | _ => rest
    rest2.dropWhile isJsSpace
  | _ => l

/-- `…​.replace(/\s*```$/i, "")`. -/
def stripTrailFence (l : List Char) : List Char :=
  match l.reverse with
  | '`' :: '`' :: '`' :: rest => (rest.dropWhile isJsSpace).reverse
  | _ => l

/-- `content.trim()` followed by the two fence-stripping replaces, as in
`parseStewardOutput` / `parseOracleOutput`. -/
def fenceStrip (content : String) : String :=
  String.mk (stripTrailFence (stripLeadFence (jsTrim content.toList)))

structure StewardActionM where
  action : String
  taskIndices : Option Json
  retryFocus : Option Json
  fixDescription : Option Json

def STEWARD_VALID_ACTIONS : List String :=
  ["retry_merge", "retry_children", "add_fix_task", "re_decompose", "escalate"]

/-- `parseStewardOutput`.  A non-object parse gives `undefined` (or a
throw, for `null`) at `parsed.action`, failing the `valid.includes`
check either way. -/
def parseStewardOutput (content : String) : Option StewardActionM :=
  let json := fenceStrip content
  match jsonParse json with
  | some (.obj kvs) =>
    match lookupLast kvs "action" with
    | some (.str a) =>
      if STEWARD_VALID_ACTIONS.contains a then
        some ⟨a, lookupLast kvs "taskIndices", lookupLast kvs "retryFocus",
          lookupLast kvs "fixDescription"⟩
      else none
    | _ => none
  | _ => none

structure OracleActionM where
  action : String
  nudgeMessage : Option Json
  retryFocus : Option Json

def ORACLE_VALID_ACTIONS : List String :=
  ["nudge_root_steward", "retry_once", "escalate_to_user"]

/-- `parseOracleOutput`. -/
def parseOracleOutput (content : String) : Option OracleActionM :=
  let json := fenceStrip content
  match jsonParse json with
  | some (.obj kvs) =>
    match lookupLast kvs "action" with
    | some (.str a) =>
      if ORACLE_VALID_ACTIONS.contains a then
        some ⟨a, lookupLast kvs "nudgeMessage", lookupLast kvs "retryFocus"⟩
      else none
    | _ => none
  | _ => none

/-- The Markdown code-fence wrapping the claim quantifies over. -/
def fenceWrap (p : String) : String := "```json\n" ++ p ++ "\n```"

/-- `gitOperationsTool.execute`. -/
def gitOperations (shell : String → ShellRun) (aborted : Bool) (wd : String)
    (operation : String) (argsStr : Option String) :
    Except String ToolExecutionResult × List (String × String) :=
  let gitArgs := argsStr.getD ""
  let command := jsTrimStr ("git " ++ operation ++ " " ++ gitArgs)
  match shell command with
  | .ok o =>
    let output := joinNonEmpty "\n"
      [o.stdout, if o.stderr ≠ "" then "stderr: " ++ o.stderr else ""]
    (.ok ⟨truncateOutput (if output = "" then "(no output)" else output), o.exitCode ≠ 0⟩,
      [(command, wd)])
  | .thrown msg =>
    if aborted then (.ok ⟨"Command cancelled (aborted by user).", true⟩, [(command, wd)])
    else (.error ("Git operation failed: " ++ msg), [(command, wd)])

/-! ## File tools (`src/tools/definitions.ts`)

The filesystem is an oracle; the second component of each result is the
list of resolved paths the tool actually touched (the I/O trace).  The
path guards — the part claims are about — are embedded exactly; for
`list_directory` and `search_in_files` the post-guard directory walk
(which only shapes the success content) is a single oracle call on the
guarded path. -/

inductive FsRead
  | ok (content : String)
  | err (msg : String)

/-- `readFileTool.execute`. -/
def readFileTool (fs : String → FsRead) (wd path : String)
    (startLine endLine : Option Int) : Except String ToolExecutionResult × List String :=
  let basePath := resolveWd wd
  let filePath := resolveAbs basePath path
  let rel := pathRelative basePath filePath
  if strStartsWith rel ".." then
    (.ok ⟨"Path must stay under the working directory.", true⟩, [])
  else if isPathUnderRestricted rel then
    (.ok ⟨"Access to this path is not allowed.", true⟩, [])
  else
    match fs filePath with
    | .ok content =>
      match startLine, endLine with
      | some sl, some el =>
        if 1 ≤ sl ∧ sl ≤ el then
          let lines := jsSplitLines content
          let slice := (lines.take (min el.toNat lines.length)).drop (sl.toNat - 1)
          let sliceContent := "[Lines " ++ toString sl ++ "-" ++ toString el ++ "]\n" ++
            intercalateStr "\n" slice
          (.ok ⟨truncateOutput sliceContent, false⟩, [filePath])
        else (.ok ⟨truncateOutput content, false⟩, [filePath])
      | _, _ => (.ok ⟨truncateOutput content, false⟩, [filePath])
    | .err msg => (.error ("Failed to read file: " ++ msg), [filePath])

def READ_FILES_MAX : Nat := 10
def READ_FILES_PER_FILE : Nat := 8000
def READ_FILES_TOTAL : Nat := 25000

/-- The per-path loop of `readFilesTool.execute`: offending paths get an
inline error block and are never handed to the filesystem; the batch is
never aborted. -/
def readFilesLoop (fs : String → FsRead) (basePath : String) :
    List String → List String → Nat → List String → List String × Nat × List String
  | [], parts, totalLen, io => (parts.reverse, totalLen, io.reverse)
  | p :: rest, parts, totalLen, io =>
    if READ_FILES_TOTAL ≤ totalLen then (parts.reverse, totalLen, io.reverse)
    else
      let filePath := resolveAbs basePath p
      let rel := pathRelative basePath filePath
      if strStartsWith rel ".." then
        readFilesLoop fs basePath rest
          (("--- " ++ p ++ " ---\n(path outside working directory)") :: parts) totalLen io
      else if isPathUnderRestricted rel then
        readFilesLoop fs basePath rest
          (("--- " ++ p ++ " ---\n(path not accessible)") :: parts) totalLen io
      else
        match fs filePath with
        | .ok content =>
          let truncated :=
            if content.length ≤ READ_FILES_PER_FILE then content
            else String.mk (content.toList.take READ_FILES_PER_FILE) ++
              "\n\n[… truncated " ++ toString (content.length - READ_FILES_PER_FILE) ++
              " characters …]"
          readFilesLoop fs basePath rest
            (("--- " ++ p ++ " ---\n" ++ truncated) :: parts)
            (totalLen + truncated.length + p.length + 10) (filePath :: io)
        | .err msg =>
          readFilesLoop fs basePath rest
            (("--- " ++ p ++ " ---\nError: " ++ msg) :: parts) totalLen (filePath :: io)

/-- `readFilesTool.execute` (the argument is already a list of strings;
the TS `filter` on `typeof` is identity there). -/
def readFilesTool (fs : String → FsRead) (wd : String) (pathsArg : List String) :
    Except String ToolExecutionResult × List String :=
  let paths := pathsArg.take READ_FILES_MAX
  if paths.isEmpty then
    (.ok ⟨"paths must be a non-empty array of paths.", true⟩, [])
  else
    let basePath := resolveWd wd
    let (parts, totalLen, io) := readFilesLoop fs basePath paths [] 0 []
    let output := intercalateStr "\n\n" parts
    (.ok ⟨if READ_FILES_TOTAL ≤ totalLen then truncateOutput output else output, false⟩, io)

inductive FsWrite
  | ok
  | err (msg : String)

/-- `writeFileTool.execute`.  Third component: whether the warn-but-allow
scope warning was logged. -/
def writeFileTool (fsw : String → String → FsWrite) (wd path content : String)
    (fileScope : Option (List String)) :
    Except String ToolExecutionResult × List String × Bool :=
  let basePath := resolveWd wd
  let filePath := resolveAbs basePath path
  let relativePath := path
  let rel := pathRelative basePath filePath
  if strStartsWith rel ".." then
    (.ok ⟨"Path must stay under the working directory.", true⟩, [], false)
  else if isPathUnderRestricted rel then
    (.ok ⟨"Access to this path is not allowed.", true⟩, [], false)
  else
    let warned := match fileScope with
      | some scope =>
        if scope ≠ [] then
          !(scope.any fun sc => strStartsWith relativePath sc || relativePath = sc)
        else false
      | none => false
    match fsw filePath content with
    | .ok => (.ok ⟨"Successfully wrote to " ++ relativePath, false⟩, [filePath], warned)
    | .err msg => (.error ("Failed to write file: " ++ msg), [filePath], warned)

/-- `listDirectoryTool.execute`.  The recursive tree walk (source lines
492–524, success content only) is the oracle `ls`. -/
def listDirectoryTool (ls : String → Nat → FsRead) (wd : String)
    (pathArg : Option String) (maxDepthArg : Option Int) :
    Except String ToolExecutionResult × List String :=
  let basePath := resolveWd wd
  let dirPath := resolveAbs basePath (pathArg.getD ".")
  let rel := pathRelative basePath dirPath
  if strStartsWith rel ".." then
    (.ok ⟨"Path must stay under the working directory. Use '.' or a subpath (e.g. 'src'); do not use '..' or parent paths.", true⟩, [])
  else if isPathUnderRestricted rel then
    (.ok ⟨"Access to this path is not allowed.", true⟩, [])
  else
    let raw := maxDepthArg.getD 0
    let raw := if raw = 0 then 1 else raw
    let maxDepth := min (max 1 raw).toNat 5
    match ls dirPath maxDepth with
    | .ok listing => (.ok ⟨listing, false⟩, [dirPath])
    | .err msg => (.error ("Failed to list directory: " ++ msg), [dirPath])

/-- `searchInFilesTool.execute`.  The post-guard file walk and match loop
(source lines 626–673, success content only, `isError` always false
there) is the oracle `search`. -/
def searchInFilesTool (search : String → String → Option String → Nat → String)
    (wd : String) (patternArg : Option String) (pathArg : Option String)
    (globArg : Option String) (maxResultsArg : Option Int) :
    Except String ToolExecutionResult × List String :=
  let basePath := resolveWd wd
  let pathRaw := match pathArg with
    | some p => if jsTrimStr p = "" then "." else jsTrimStr p
    | none => "."
  let searchPath := resolveAbs basePath pathRaw
  let relPath := pathRelative basePath searchPath
  if strStartsWith relPath ".." then
    (.ok ⟨"Path must stay under the working directory.", true⟩, [])
  else if isPathUnderRestricted relPath then
    (.ok ⟨"Access to this path is not allowed.", true⟩, [])
  else
    let patternStr := (patternArg.map jsTrimStr).getD ""
    if patternStr = "" then (.ok ⟨"Pattern is required.", true⟩, [])
    else
      let rawMax := maxResultsArg.getD 0
      let rawMax := if rawMax = 0 then 150 else rawMax
      let maxResults := min (max 1 rawMax).toNat 500
      (.ok ⟨search searchPath patternStr globArg maxResults, false⟩, [searchPath])

/-! ## Event bus (`src/events/EventBus.ts`)

`EventBus` registers every handler on one `EventEmitter` event name, so
`emit` is Node `EventEmitter.emit`: handlers run synchronously, in
registration order; a handler that throws propagates its exception out
of `emit` and the handlers registered after it are not invoked.  A
subscriber is modelled by its registration id and whether its handler
throws on the event being emitted. -/

structure Subscriber where
  id : Nat
  throws : Bool

/-- One `emit`: the ids of the subscribers whose handler actually ran,
and whether an exception escaped to the producer. -/
def emitRun : List Subscriber → List Nat × Bool
  | [] => ([], false)
  | h :: rest =>
    if h.throws then ([h.id], true)
    else
      let (ds, ex) := emitRun rest
      (h.id :: ds, ex)

/-! ## Task store (`src/persistence/TaskManager.ts`) -/

inductive TaskStatusM
  | pending
  | in_progress
  | blocked
  | review
  | completed
  | failed
deriving DecidableEq

/-- `TaskData`, restricted to the fields `setComplexity` touches or the
claim reads. -/
structure TaskDataM where
  id : String
  description : String
  status : TaskStatusM
  complexity : Option Rat
  updatedAt : String
deriving DecidableEq

/-- The in-memory `Map<string, TaskData>` read, `TaskManager.get`. -/
def tmGet (tasks : List (String × TaskDataM)) (id : String) : Option TaskDataM :=
  (tasks.find? fun kv => kv.1 = id).map fun kv => kv.2

/-- `TaskManager.setComplexity` with its write-through `persist`: when
the task exists, `task.complexity = complexity` is assigned
unconditionally, `updatedAt` is stamped, and the record is persisted
under `tasks/<id>`.  Returns the updated map and the store writes. -/
def setComplexity (now : String) (tasks : List (String × TaskDataM)) (id : String)
    (complexity : Rat) : List (String × TaskDataM) × List (String × TaskDataM) :=
  match tmGet tasks id with
  | none => (tasks, [])
  | some task =>
    let task' := { task with complexity := some complexity, updatedAt := now }
    (tasks.map fun kv => if kv.1 = id then (kv.1, task') else kv,
      [("tasks/" ++ task.id, task')])

/-! ## Workflow engine: pure helpers (`src/workflow/WorkflowEngine.ts`) -/

structure SubtaskDef where
  description : String
  fileScope : Option (List String)
  skipAnalysis : Bool
deriving DecidableEq

structure DecompPlan where
  subtasks : List SubtaskDef
  parallel : Bool
  setupTask : Option SubtaskDef
deriving DecidableEq

/-- `setupDesc.split(/\s+/).filter(w => w.length > 2)`. -/
def setupContentWords (setupDesc : String) : List String :=
  (jsSplitWs setupDesc).filter fun w => 2 < w.length

/-- The per-subtask predicate of `filterDuplicateSetupSubtask` (`true` =
the subtask is kept): drop on exact (trimmed, lowercased) equality, or
when the setup has at least two content words and every one of them
occurs in the subtask description. -/
def dupSetupKeep (setupDesc : String) (s : SubtaskDef) : Bool :=
  let d := jsLowerStr (jsTrimStr s.description)
  if d = setupDesc then false
  else
    let words := setupContentWords setupDesc
    let sameMeaning := decide (2 ≤ words.length) && words.all fun w => strIncludes d w
    !sameMeaning

/-- `WorkflowEngine.filterDuplicateSetupSubtask`. -/
def filterDuplicateSetupSubtask (plan : DecompPlan) : List SubtaskDef :=
  match plan.setupTask with
  | none => plan.subtasks
  | some setup => plan.subtasks.filter (dupSetupKeep (jsLowerStr (jsTrimStr setup.description)))

/-- `p.replace(/\/$/, "") || "."`. -/
def normScope (p : String) : String :=
  let q := if strEndsWith p "/" then String.mk p.toList.dropLast else p
  if q = "" then "." else q

/-- Inner pair check of `haveOverlappingFileScopes` on the two
already-normalized scope lists. -/
def scopesOverlapPair (a b : List String) : Bool :=
  a.isEmpty || b.isEmpty ||
    a.any fun pa => b.any fun pb =>
      pa = pb || strStartsWith pa (pb ++ "/") || strStartsWith pb (pa ++ "/")

def normScopes (s : SubtaskDef) : List String :=
  (s.fileScope.getD []).map normScope

/-- `WorkflowEngine.haveOverlappingFileScopes`: some pair `i < j`
overlaps. -/
def haveOverlappingFileScopes : List SubtaskDef → Bool
  | [] => false
  | s :: rest =>
    (rest.any fun t => scopesOverlapPair (normScopes s) (normScopes t)) ||
      haveOverlappingFileScopes rest

/-- `src/core/stewardVoice.ts`. -/
def STEWARD_VOICE_PREF : String := "The Steward (voice of the scriptorium) reminds you: "

def formatStewardVoice (nudge : String) : String :=
  if jsTrimStr nudge = "" then "" else STEWARD_VOICE_PREF ++ jsTrimStr nudge

/-! ## Agent runtime (`src/agents/AgentRuntime.ts`)

The LLM provider is an oracle indexed by the turn number (its value is
what `callLLMWithRetry` handed back: a response, or — after the retries
the claims do not touch — the final error).  Tool arguments are carried
as their `JSON.stringify` serialization (`argsJson`), which is all
`isStuckLoop` and the conversation need. -/

inductive AgentRole
  | analyzer
  | planner
  | executor
  | reviewer
  | coordinator
  | steward
  | oracle
deriving DecidableEq

inductive ArtifactType
  | analysis
  | spec
  | decomposition
  | code_changes
  | review
  | coordination
  | management
  | oracle
deriving DecidableEq

inductive AgentResultStatus
  | completed
  | failed
  | needs_review
deriving DecidableEq

/-- `artifactTypeMap` in `buildResult`. -/
def artifactTypeFor : AgentRole → ArtifactType
  | .analyzer => .analysis
  | .planner => .spec
  | .executor => .code_changes
  | .reviewer => .review
  | .coordinator => .coordination
  | .steward => .management
  | .oracle => .oracle

structure TokenUsage where
  promptTokens : Nat
  completionTokens : Nat
  totalTokens : Nat
deriving DecidableEq

structure LLMToolCall where
  id : String
  name : String
  argsJson : String
deriving DecidableEq

structure LLMResponse where
  content : Option String
  toolCalls : List LLMToolCall
  usage : TokenUsage
  stopReason : String

inductive LLMMessage
  | system (content : String)
  | user (content : String)
  | assistant (content : String) (toolCalls : Option (List LLMToolCall))
  | tool (content : String) (toolCallId : String)

/-- The outcome of one `tool.execute` call. -/
inductive ToolRun
  | ok (content : String) (isError : Bool)
  | thrown (msg : String)

inductive RtEvent
  | turn (n : Nat)
  | tokenUpdate
  | contentEv
  | toolCall (name : String)
  | toolResult (name : String) (isError : Bool)
  | completeEv (status : AgentResultStatus)
deriving DecidableEq

/-- `x ?? dflt` on an optional JS value (absent or `null` falls back). -/
def jsCoalesce (v : Option Json) (dflt : Json) : Json :=
  match v with
  | none => dflt
  | some .null => dflt
  | some w => w

structure ArtifactM where
  type : ArtifactType
  content : Json
  handoffNotes : Json
  reviewNotes : Json
  metadataExtra : Option Json

structure AgentResultM where
  role : AgentRole
  status : AgentResultStatus
  artifact : ArtifactM
  tokenUsage : TokenUsage
  conversationLog : List LLMMessage

structure RtConfig where
  role : AgentRole
  toolNames : List String
  maxTurns : Nat

structure RtState where
  messages : List LLMMessage
  recent : List String
  usage : TokenUsage
  events : List RtEvent

/-- `AgentRuntime.buildResult`. -/
def buildResult (cfg : RtConfig) (st : RtState) (status : AgentResultStatus)
    (summary : Json) (content : Option Json) (handoff review meta : Option Json) :
    AgentResultM :=
  { role := cfg.role, status := status,
    artifact :=
      { type := artifactTypeFor cfg.role,
        content := content.getD summary,
        handoffNotes := jsCoalesce handoff (.str ""),
        reviewNotes := jsCoalesce review (.str ""),
        metadataExtra := meta },
    tokenUsage := st.usage,
    conversationLog := st.messages }

def MAX_CONSECUTIVE_DUPLICATES : Nat := 3

/-- The key of one tool call inside `isStuckLoop`:
`name + ":" + JSON.stringify(arguments)`. -/
def toolCallKey (tc : LLMToolCall) : String := tc.name ++ ":" ++ tc.argsJson

def seqKey (tcs : List LLMToolCall) : String :=
  intercalateStr "|" (tcs.map toolCallKey)

/-- The `push` + `shift` buffer update of `isStuckLoop`. -/
def pushKey (recent : List String) (k : String) : List String :=
  let l := recent ++ [k]
  if MAX_CONSECUTIVE_DUPLICATES < l.length then l.drop 1 else l

def allEqHead : List String → Bool
  | [] => true
  | x :: xs => xs.all fun y => y = x

/-- `AgentRuntime.isStuckLoop`: detection flag and updated buffer. -/
def isStuckLoopF (recent : List String) (currentCalls : List LLMToolCall) :
    Bool × List String :=
  let l := pushKey recent (seqKey currentCalls)
  (decide (MAX_CONSECUTIVE_DUPLICATES ≤ l.length) && allEqHead l, l)

structure CompletionPayload where
  status : AgentResultStatus
  summary : Json
  content : Json
  handoff : Option Json
  review : Option Json
  meta : Option Json

/-- JS truthiness of a JSON value (`!summary`, `!taskContent`). -/
def jsTruthy : Json → Bool
  | .null => false
  | .bool b => b
  | .num q => !(q.num = 0)
  | .str s => s ≠ ""
  | .arr _ => true
  | .obj _ => true

def statusFromString (s : String) : Option AgentResultStatus :=
  if s = "completed" then some .completed
  else if s = "failed" then some .failed
  else if s = "needs_review" then some .needs_review
  else none

/-- `AgentRuntime.parseCompletion` on the `complete_task` result content
(which is the JSON the tool echoed): require a valid `status` string and
truthy `summary` and `content`. -/
def parseCompletion (content : String) : Option CompletionPayload :=
  match jsonParse content with
  | some (.obj kvs) =>
    match lookupLast kvs "status" with
    | some (.str s) =>
      match statusFromString s with
      | some st =>
        let summary := lookupLast kvs "summary"
        let taskContent := lookupLast kvs "content"
        if jsTruthy (summary.getD .null) && jsTruthy (taskContent.getD .null) then
          some ⟨st, summary.getD .null, taskContent.getD .null,
            lookupLast kvs "handoff_notes", lookupLast kvs "review_notes",
            lookupLast kvs "metadata"⟩
        else none
      | none => none
    | _ => none
  | _ => none

/-- Whether executing one tool call finalizes the agent — the
state-independent core of the `complete_task` branch. -/
def callCompletion (toolNames : List String) (toolExec : LLMToolCall → ToolRun)
    (tc : LLMToolCall) : Option CompletionPayload :=
  if tc.name = "complete_task" && toolNames.contains tc.name then
    match toolExec tc with
    | .ok content _ => parseCompletion content
    | .thrown _ => none
  else none

def invalidCompletionMsg : String :=
  "Your complete_task call had an invalid format. Please call complete_task again with valid status (completed/failed/needs_review), summary, and content fields."

/-- `AgentRuntime.executeToolCalls`: run the turn's calls in order; a
well-formed `complete_task` returns its payload immediately (remaining
calls are not executed); every other outcome appends a tool-result
message and continues. -/
def executeToolCalls (toolNames : List String) (toolExec : LLMToolCall → ToolRun) :
    List LLMToolCall → RtState → Option CompletionPayload × RtState
  | [], st => (none, st)
  | tc :: rest, st =>
    let st := {st with events := st.events ++ [RtEvent.toolCall tc.name]}
    if toolNames.contains tc.name then
      match toolExec tc with
      | .ok content isError =>
        let st := {st with messages := st.messages ++ [LLMMessage.tool content tc.id],
                           events := st.events ++ [RtEvent.toolResult tc.name isError]}
        if tc.name = "complete_task" then
          match parseCompletion content with
          | some payload =>
            (some payload, {st with events := st.events ++ [RtEvent.completeEv payload.status]})
          | none =>
            let st := {st with messages := st.messages ++ [LLMMessage.user invalidCompletionMsg]}
            executeToolCalls toolNames toolExec rest st
        else executeToolCalls toolNames toolExec rest st
      | .thrown msg =>
        let st := {st with
                           messages := st.messages ++ [LLMMessage.tool ("Tool execution error: " ++ msg) tc.id],
                           events := st.events ++ [RtEvent.toolResult tc.name true]}
        executeToolCalls toolNames toolExec rest st
    else
      let st := {st with
                         messages := st.messages ++ [LLMMessage.tool ("Unknown tool: " ++ tc.name) tc.id],
                         events := st.events ++ [RtEvent.toolResult tc.name true]}
      executeToolCalls toolNames toolExec rest st

def finalTurnMsg : String :=
  "This is your FINAL turn. You MUST call complete_task now with your best result so far. Do not call any other tools."

def addUsage (u v : TokenUsage) : TokenUsage :=
  ⟨u.promptTokens + v.promptTokens, u.completionTokens + v.completionTokens,
    u.totalTokens + v.totalTokens⟩

/-- Turn bookkeeping before the tool-call handling: `agent:turn`, the
final-turn nudge message, usage accumulation + `token:update`,
`agent:content`, and the assistant-message append (a falsy/empty content
is only recorded when there are tool calls). -/
def turnStartState (cfg : RtConfig) (turn : Nat) (st : RtState) : RtState :=
  let st := {st with events := st.events ++ [.turn turn]}
  if turn = cfg.maxTurns then {st with messages := st.messages ++ [.user finalTurnMsg]}
  else st

def postLLMState (r : LLMResponse) (st : RtState) : RtState :=
  let st := {st with usage := addUsage st.usage r.usage,
                     events := st.events ++ [.tokenUpdate]}
  let st := if jsTrimStr (r.content.getD "") ≠ "" then
      {st with events := st.events ++ [.contentEv]}
    else st
  match r.content with
  | some c =>
    if c ≠ "" then
      {st with messages := st.messages ++
        [.assistant c (if r.toolCalls.isEmpty then none else some r.toolCalls)]}
    else if !r.toolCalls.isEmpty then
      {st with messages := st.messages ++ [.assistant "" (some r.toolCalls)]}
    else st
  | none =>
    if !r.toolCalls.isEmpty then
      {st with messages := st.messages ++ [.assistant "" (some r.toolCalls)]}
    else st

def stuckSummary : String :=
  "Agent appeared stuck in a loop — repeated the same tool call multiple times"

def payloadResult (cfg : RtConfig) (st : RtState) (p : CompletionPayload) : AgentResultM :=
  buildResult cfg st p.status p.summary (some p.content) p.handoff p.review p.meta

/-- The turn loop of `AgentRuntime.run`, fuel = remaining turns
(`run` enters with fuel `maxTurns` at turn 1; fuel 0 is the fallthrough
after the `for`). -/
def agentLoop (cfg : RtConfig) (llm : Nat → Except String LLMResponse)
    (toolExec : LLMToolCall → ToolRun) (abortAt : Nat → Bool) :
    Nat → Nat → RtState → AgentResultM × RtState
  | 0, _turn, st =>
    (buildResult cfg st .needs_review
      (.str "Agent reached maximum turns without completing") none none none none, st)
  | fuel + 1, turn, st =>
    if abortAt turn then
      (buildResult cfg st .failed (.str "Aborted by user") none none none none, st)
    else
      let st1 := turnStartState cfg turn st
      match llm turn with
      | .error e =>
        (buildResult cfg st1 .failed
          (.str ("LLM call failed after retries: " ++ e)) none none none none, st1)
      | .ok r =>
        let st2 := postLLMState r st1
        if r.toolCalls.isEmpty then agentLoop cfg llm toolExec abortAt fuel (turn + 1) st2
        else
          let stuckStep := isStuckLoopF st2.recent r.toolCalls
          let st3 := {st2 with recent := stuckStep.2}
          if stuckStep.1 then
            (buildResult cfg st3 .needs_review (.str stuckSummary) none none none none, st3)
          else
            match executeToolCalls cfg.toolNames toolExec r.toolCalls st3 with
            | (some payload, st4) => (payloadResult cfg st4 payload, st4)
            | (none, st4) => agentLoop cfg llm toolExec abortAt fuel (turn + 1) st4

/-- `AgentRuntime.run` from its initial conversation. -/
def agentRun (cfg : RtConfig) (llm : Nat → Except String LLMResponse)
    (toolExec : LLMToolCall → ToolRun) (abortAt : Nat → Bool)
    (systemPrompt : String) (initialContext : Option String) : AgentResultM × RtState :=
  let msgs := LLMMessage.system systemPrompt ::
    (match initialContext with
     | some c => [LLMMessage.user c]
     | none => [])
  agentLoop cfg llm toolExec abortAt cfg.maxTurns 1 ⟨msgs, [], ⟨0, 0, 0⟩, []⟩

/-- How many LLM turns a state has consumed (`agent:turn` events — one
per LLM invocation reached). -/
def turnEvents (st : RtState) : Nat :=
  st.events.countP fun e => match e with
    | .turn _ => true
    | _ => false

/-- A concrete analyzer configuration for exercising the runtime. -/
def c2Cfg : RtConfig := ⟨.analyzer, ["read_file", "complete_task"], 10⟩

def c2Call : LLMToolCall := ⟨"tc-1", "read_file", "\x7b\"path\":\"src/index.ts\"\x7d"⟩

/-- A turn with no tool calls at all (content-only reply). -/
def c2Skip : LLMResponse := ⟨some "thinking it over", [], ⟨7, 2, 9⟩, "stop"⟩

/-- The repeated tool-calling turn: the same single `read_file` call,
with content and token usage varying from turn to turn. -/
def c2Resp2 (u : Nat) : LLMResponse :=
  ⟨some ("turn " ++ String.mk (List.replicate u 'x')), [c2Call],
    ⟨10 + u, u, 10 + 2 * u⟩, "tool_use"⟩

/-- An LLM that issues the identical tool-call sequence on turns 2, 4
and 5 and a plain content reply on the turns in between. -/
def c2Llm (u : Nat) : Except String LLMResponse :=
  if u = 2 ∨ u = 4 ∨ u = 5 then Except.ok (c2Resp2 u) else Except.ok c2Skip

/-- A run whose LLM repeats the same `read_file` call on its tool-calling
turns 2, 4 and 5, interleaved with no-tool-call turns. -/
def c2Run2 : AgentResultM × RtState :=
  agentLoop c2Cfg c2Llm (fun _ => ToolRun.ok "const x = 1" false) (fun _ => false)
    (2 + 1 + 1 + 0 + 3) 1
    ⟨[LLMMessage.system "sys", LLMMessage.user "task"], [], ⟨0, 0, 0⟩, []⟩

/-! ## Workflow engine: entry point and decomposition subtask phase -/

inductive WStatus
  | completed
  | failed
  | needs_review
deriving DecidableEq

inductive WfEvent (α : Type)
  | workflowStart (taskId : String) (taskDescription : String)
  | workflowComplete (taskId : String) (status : WStatus) (duration : Nat)
  | inner (e : α)

/-- `WorkflowEngine.run` (source lines 125–186).  `inner` is the
behaviour of the guarded `runTask` call: the events it emitted on the
bus before returning or throwing, and its outcome.  Its event type `α`
is arbitrary but not `workflow:*` — in the source those two variants are
emitted only by `run` itself, which the typing makes structural.  On a
throw, `run` still emits `workflow:complete` with status `failed` and
rethrows (wrapped as `WorkflowError`), modelled by `Except.error`. -/
def engineRun {α : Type} (inner : List α × Except String WStatus)
    (taskId taskDescription : String) (duration : Nat) :
    Except String WStatus × List (WfEvent α) :=
  let lead := WfEvent.workflowStart taskId taskDescription :: inner.1.map WfEvent.inner
  match inner.2 with
  | .ok status => (.ok status, lead ++ [.workflowComplete taskId status duration])
  | .error e => (.error e, lead ++ [.workflowComplete taskId .failed duration])

def isWorkflowStart {α : Type} : WfEvent α → Bool
  | .workflowStart _ _ => true
  | _ => false

def isWorkflowComplete {α : Type} : WfEvent α → Bool
  | .workflowComplete _ _ _ => true
  | _ => false

/-! ### The subtask phase of `runDecomposition` (source lines 384–572)

Everything up to the coordinator hand-off: duplicate-setup filtering,
the parallel/sequential decision with its downgrade log, the setup
child, the subtask runs with their `subtask:start` / `subtask:complete`
events, and the any-failed aggregation.  Nested `runTask` recursion is
the oracle `runTaskO` (it may append arbitrary events and allocate ids);
`maybeOversightCheckIn` is the oracle `oversightO`.  `randomUUID` is a
fresh-id counter.  The artifact aggregation and the org-chart updates
(no bus events) are not tracked. -/

inductive PhEvent
  | logMsg (tag : String)
  | subtaskStart (taskId : String) (subtaskId : Nat) (description : String)
      (index : Nat) (total : Nat)
  | subtaskComplete (subtaskId : Nat) (status : WStatus)
  | childEv (tag : Nat)
deriving DecidableEq

structure EngSt where
  trace : List PhEvent
  nextId : Nat
  pendingNudge : Option String

structure WLite where
  status : WStatus
  artifacts : List String
deriving DecidableEq

structure RunArgs where
  description : String
  depth : Nat
  fileScope : Option (List String)
  skipAnalysis : Bool
  parentContext : String
  subtaskId : Nat

def overlapDowngradeLog : String :=
  "Overlapping file scopes detected; running subtasks sequentially"

/-- The pending-nudge application to the parent context (source lines
507–514): consume the nudge, prepending the steward voice block. -/
def nudgeStep (originalDescription : String) (st : EngSt) : String × EngSt :=
  match st.pendingNudge with
  | some nudge =>
    ("Subtask of: " ++ originalDescription ++ "\n\n" ++ formatStewardVoice nudge,
      {st with pendingNudge := none})
  | none => ("Subtask of: " ++ originalDescription, st)

/-- Allocate the fresh subtask id and emit its `subtask:start`. -/
def startState (taskId description : String) (idx total : Nat) (st : EngSt) : EngSt :=
  {st with nextId := st.nextId + 1,
           trace := st.trace ++
             [PhEvent.subtaskStart taskId st.nextId description idx total]}

/-- Run one child subtask: fresh id, `subtask:start`, the nested
`runTask` call, `subtask:complete` with the child's status. -/
def childRun (runTaskO : RunArgs → EngSt → WLite × EngSt) (taskId desc : String)
    (idx total depth : Nat) (fileScope : Option (List String)) (skipAnalysis : Bool)
    (parentContext : String) (st : EngSt) : WLite × EngSt :=
  let subtaskId := st.nextId
  let st2 := startState taskId desc idx total st
  let childStep := runTaskO
    ⟨desc, depth + 1, fileScope, skipAnalysis, parentContext, subtaskId⟩ st2
  (childStep.1,
    {childStep.2 with trace := childStep.2.trace ++
      [PhEvent.subtaskComplete subtaskId childStep.1.status]})

/-- One iteration of the sequential loop (source lines 502–552):
oversight check-in, nudge application, then the child run. -/
def seqStep (runTaskO : RunArgs → EngSt → WLite × EngSt)
    (oversightO : Nat → EngSt → EngSt) (taskId originalDescription : String)
    (depth setupOffset total : Nat) (sub : SubtaskDef) (i : Nat) (st : EngSt) :
    WLite × EngSt :=
  let ps := nudgeStep originalDescription (oversightO i st)
  childRun runTaskO taskId sub.description (i + setupOffset) total depth
    sub.fileScope sub.skipAnalysis ps.1 ps.2

/-- The sequential branch (source lines 502–558): run each subtask in
declared order, stopping on the first failure. -/
def runSubtasksSeq (runTaskO : RunArgs → EngSt → WLite × EngSt)
    (oversightO : Nat → EngSt → EngSt) (taskId originalDescription : String)
    (depth setupOffset total : Nat) :
    List SubtaskDef → Nat → EngSt → List WLite × EngSt
  | [], _i, st => ([], st)
  | sub :: rest, i, st =>
    let step := seqStep runTaskO oversightO taskId originalDescription depth
      setupOffset total sub i st
    if step.1.status = .failed then ([step.1], step.2)
    else
      let restStep := runSubtasksSeq runTaskO oversightO taskId originalDescription depth
        setupOffset total rest (i + 1) step.2
      (step.1 :: restStep.1, restStep.2)

def parStartEvents (taskId : String) (setupOffset total : Nat) :
    List (SubtaskDef × Nat) → Nat → List PhEvent
  | [], _ => []
  | (sub, sid) :: rest, i =>
    PhEvent.subtaskStart taskId sid sub.description (i + setupOffset) total ::
      parStartEvents taskId setupOffset total rest (i + 1)

/-- The `Promise.all` fan-out, run child-by-child in declared order (a
sequential embedding cannot express the true interleaving; no claim
settled here exercises this branch). -/
def runParChildren (runTaskO : RunArgs → EngSt → WLite × EngSt)
    (originalDescription : String) (depth : Nat) :
    List (SubtaskDef × Nat) → EngSt → List WLite × EngSt
  | [], st => ([], st)
  | (sub, sid) :: rest, st =>
    let childStep := runTaskO
      ⟨sub.description, depth + 1, sub.fileScope, sub.skipAnalysis,
        "Subtask of: " ++ originalDescription, sid⟩ st
    let restStep := runParChildren runTaskO originalDescription depth rest childStep.2
    (childStep.1 :: restStep.1, restStep.2)

def allocIds (st : EngSt) (n : Nat) : List Nat × EngSt :=
  ((List.range n).map fun i => st.nextId + i, {st with nextId := st.nextId + n})

inductive PhaseOut
  | failedOut
  | proceed (results : List WLite)
deriving DecidableEq

/-- Steps 5–6a of `runDecomposition`: run the (already filtered)
subtasks on the chosen branch, then the any-failed aggregation. -/
def subtaskPhaseRun (runTaskO : RunArgs → EngSt → WLite × EngSt)
    (oversightO : Nat → EngSt → EngSt) (taskId originalDescription : String)
    (depth setupOffset total : Nat) (parallel : Bool) (subtasks : List SubtaskDef)
    (st : EngSt) : PhaseOut × EngSt :=
  let branchStep :=
    if parallel then
      let st := {st with trace := st.trace ++ [PhEvent.logMsg "The path forks — %d branches (parallel)"]}
      let idStep := allocIds st subtasks.length
      let st := {idStep.2 with trace := idStep.2.trace ++
                        parStartEvents taskId setupOffset total (subtasks.zip idStep.1) 0}
      let childStep := runParChildren runTaskO originalDescription depth
        (subtasks.zip idStep.1) st
      let st := {childStep.2 with trace := childStep.2.trace ++
                        ((idStep.1.zip (childStep.1.map WLite.status)).map
                          fun p => PhEvent.subtaskComplete p.1 p.2)}
      (childStep.1, st)
    else
      let st := {st with trace := st.trace ++ [PhEvent.logMsg "The path forks — %d branches (sequential)"]}
      runSubtasksSeq runTaskO oversightO taskId originalDescription depth setupOffset total
        subtasks 0 st
  if branchStep.1.any fun r => r.status = .failed then (.failedOut, branchStep.2)
  else (.proceed branchStep.1, branchStep.2)

/-- The subtask phase of `runDecomposition`: filter, parallel decision,
downgrade log, setup child, subtask runs, any-failed aggregation. -/
def subtaskPhase (runTaskO : RunArgs → EngSt → WLite × EngSt)
    (oversightO : Nat → EngSt → EngSt) (taskId : String) (plan : DecompPlan)
    (originalDescription : String) (depth : Nat) (st : EngSt) : PhaseOut × EngSt :=
  let subtasks := filterDuplicateSetupSubtask plan
  let parallel := plan.parallel && !haveOverlappingFileScopes subtasks
  let st := if subtasks.length < plan.subtasks.length then
      {st with trace := st.trace ++ [PhEvent.logMsg "Filtered %d duplicate setup subtask(s)"]}
    else st
  let st := if plan.parallel && !parallel then
      {st with trace := st.trace ++ [PhEvent.logMsg overlapDowngradeLog]}
    else st
  let setupOffset := if plan.setupTask.isSome then 1 else 0
  let totalWithSetup := setupOffset + subtasks.length
  match plan.setupTask with
  | some setup =>
    let st := {st with trace := st.trace ++ [PhEvent.logMsg "Running setup subtask before parallel work"]}
    let setupStep := childRun runTaskO taskId setup.description 0 totalWithSetup depth
      setup.fileScope setup.skipAnalysis ("Setup task for: " ++ originalDescription) st
    if setupStep.1.status = .failed then (.failedOut, setupStep.2)
    else subtaskPhaseRun runTaskO oversightO taskId originalDescription depth setupOffset
      totalWithSetup parallel subtasks setupStep.2
  | none =>
    subtaskPhaseRun runTaskO oversightO taskId originalDescription depth setupOffset
      totalWithSetup parallel subtasks st

/-- The state of `subtaskPhase` after the duplicate-filter log. -/
def c8St1 (plan : DecompPlan) (st : EngSt) : EngSt :=
  if (filterDuplicateSetupSubtask plan).length < plan.subtasks.length then
    {st with trace := st.trace ++ [PhEvent.logMsg "Filtered %d duplicate setup subtask(s)"]}
  else st

/-- The state of `subtaskPhase` after the overlap-downgrade log. -/
def c8St2 (plan : DecompPlan) (st : EngSt) : EngSt :=
  {c8St1 plan st with trace := (c8St1 plan st).trace ++ [PhEvent.logMsg overlapDowngradeLog]}

/-- The state of `subtaskPhase` after the setup-announcement log. -/
def c8StLog (plan : DecompPlan) (st : EngSt) : EngSt :=
  {c8St2 plan st with trace := (c8St2 plan st).trace ++
    [PhEvent.logMsg "Running setup subtask before parallel work"]}

/-- Does an event start a subtask with the given description? -/
def isStartOf (desc : String) : PhEvent → Bool
  | .subtaskStart _ _ d _ _ => d = desc
  | _ => false

/-- A parallel plan whose two subtasks have nested file scopes. -/
def c8Plan : DecompPlan :=
  ⟨[⟨"first subtask", some ["src/a"], false⟩, ⟨"second subtask", some ["src/a/b"], false⟩],
    true, none⟩

/-- The removal rule exactly as the specification sentence words it
("equals S's description, or contains at least 2 of S's non-trivial
words") — stated for comparison against the source's
`filterDuplicateSetupSubtask`. -/
def claimRemovesC9 (setup s : SubtaskDef) : Bool :=
  let setupDesc := jsLowerStr (jsTrimStr setup.description)
  let d := jsLowerStr (jsTrimStr s.description)
  d = setupDesc ||
    2 ≤ ((setupContentWords setupDesc).filter fun w => strIncludes d w).length

/-! # Theorems -/

/-! ## Shared lemmas -/

theorem filter_map_inner_start {α : Type} (l : List α) :
    (l.map WfEvent.inner).filter isWorkflowStart = [] := by
  induction l with
  | nil => rfl
  | cons x xs ih => simp [isWorkflowStart, ih]

theorem filter_map_inner_complete {α : Type} (l : List α) :
    (l.map WfEvent.inner).filter isWorkflowComplete = [] := by
  induction l with
  | nil => rfl
  | cons x xs ih => simp [isWorkflowComplete, ih]

theorem tmGet_cons (kv : String × TaskDataM) (rest : List (String × TaskDataM))
    (id : String) :
    tmGet (kv :: rest) id = if kv.1 = id then some kv.2 else tmGet rest id := by
  by_cases h : kv.1 = id
  · simp [tmGet, List.find?, h]
  · simp [tmGet, List.find?, h]

theorem tmGet_update_self (tasks : List (String × TaskDataM)) (id : String)
    (t t' : TaskDataM) (h : tmGet tasks id = some t) :
    tmGet (tasks.map fun kv => if kv.1 = id then (kv.1, t') else kv) id = some t' := by
  induction tasks with
  | nil => simp [tmGet] at h
  | cons kv rest ih =>
    rw [tmGet_cons] at h
    by_cases hk : kv.1 = id
    · simp [tmGet_cons, hk]
    · rw [if_neg hk] at h
      simp only [List.map_cons, if_neg hk, tmGet_cons, hk, if_false]
      exact ih h

theorem tmGet_update_other (tasks : List (String × TaskDataM)) (id id' : String)
    (t' : TaskDataM) (h : id' ≠ id) :
    tmGet (tasks.map fun kv => if kv.1 = id then (kv.1, t') else kv) id' =
      tmGet tasks id' := by
  induction tasks with
  | nil => rfl
  | cons kv rest ih =>
    by_cases hk : kv.1 = id
    · have hne : kv.1 ≠ id' := by rw [hk]; exact fun hh => h hh.symm
      simp [List.map_cons, if_pos hk, tmGet_cons, hk, Ne.symm h, hne, ih]
    · simp [List.map_cons, if_neg hk, tmGet_cons, ih]

theorem dupSetupKeep_iff (setupDesc : String) (s : SubtaskDef) :
    dupSetupKeep setupDesc s = true ↔
      ¬ (jsLowerStr (jsTrimStr s.description) = setupDesc ∨
         (2 ≤ (setupContentWords setupDesc).length ∧
          ∀ w ∈ setupContentWords setupDesc,
            strIncludes (jsLowerStr (jsTrimStr s.description)) w = true)) := by
  unfold dupSetupKeep
  by_cases h : jsLowerStr (jsTrimStr s.description) = setupDesc
  · simp [h]
  · simp only [if_neg h, Bool.not_eq_true']
    simp [h, List.all_eq_true]

/-! ## C1 — workflow start/complete events -/

/-- C1: every `WorkflowEngine.run(taskDescription, taskId)` emits exactly
one `workflow:start` and exactly one `workflow:complete`, both carrying
that `taskId`; this holds also when the inner `runTask` throws, in which
case the single `workflow:complete` carries status `failed`. -/
theorem c1_workflow_events_once {α : Type} (inner : List α × Except String WStatus)
    (taskId taskDescription : String) (duration : Nat) :
    ((engineRun inner taskId taskDescription duration).2.filter isWorkflowStart =
        [.workflowStart taskId taskDescription]) ∧
    (∃ st, (engineRun inner taskId taskDescription duration).2.filter isWorkflowComplete =
        [.workflowComplete taskId st duration] ∧
      (∀ e, inner.2 = .error e → st = .failed) ∧
      (∀ s, inner.2 = .ok s → st = s)) := by
  obtain ⟨evs, out⟩ := inner
  cases out with
  | ok s =>
    refine ⟨?_, s, ?_, ?_, ?_⟩
    · simp [engineRun, isWorkflowStart, isWorkflowComplete, List.filter_append,
        filter_map_inner_start]
    · simp [engineRun, isWorkflowStart, isWorkflowComplete, List.filter_append,
        filter_map_inner_complete]
    · intro e he; cases he
    · intro s' hs'; cases hs'; rfl
  | error e =>
    refine ⟨?_, .failed, ?_, ?_, ?_⟩
    · simp [engineRun, isWorkflowStart, isWorkflowComplete, List.filter_append,
        filter_map_inner_start]
    · simp [engineRun, isWorkflowStart, isWorkflowComplete, List.filter_append,
        filter_map_inner_complete]
    · intro e' _; rfl
    · intro s' hs'; cases hs'

/-! ## C3 — blocked commands are rejected before any spawn -/

/-- C3: every `run_terminal_command` invocation whose command matches the
safety blocklist returns `isError = true` with the blocking message, and
no child process is spawned (the spawn trace is empty). -/
theorem c3_blocked_never_spawned (shell : String → ShellRun) (aborted : Bool)
    (wd cmd : String) (cwdArg : Option String) (msg : String)
    (h : isCommandBlocked cmd = some msg) :
    runTerminalCommand shell aborted wd cmd cwdArg = (.ok ⟨msg, true⟩, []) := by
  simp [runTerminalCommand, h]

/-- Witness: `rm -rf /` is matched by the first blocklist entry, is
reported with `isError`, and spawns nothing. -/
theorem c3_blocked_never_spawned_witness :
    isCommandBlocked "rm -rf /" =
      some "Command blocked by safety policy: matches \\brm\\s+-rf\\s+[/~]" ∧
    runTerminalCommand (fun _ => .thrown "unused") false "/work" "rm -rf /" none =
      (.ok ⟨"Command blocked by safety policy: matches \\brm\\s+-rf\\s+[/~]", true⟩, []) :=
  ⟨by decide, c3_blocked_never_spawned _ _ _ _ _ _ (by decide)⟩

/-! ## C5 — event bus delivery -/

/-- C5 counterexample: with a first subscriber whose handler throws, the
subscriber registered after it is never invoked — delivery is *not*
protected from subscriber exceptions (`EventBus.emit` is a bare
`EventEmitter.emit`). -/
theorem c5_delivery_counterexample :
    ¬ ((emitRun [⟨0, true⟩, ⟨1, false⟩]).1 =
        ([⟨0, true⟩, ⟨1, false⟩] : List Subscriber).map Subscriber.id) := by
  decide

/-- C5 (amended): delivery is synchronous within `emit`, in registration
order, but a subscriber's exception propagates to the producer and stops
delivery: exactly the subscribers up to and including the first throwing
one are invoked; when no subscriber throws, every subscriber is invoked,
in registration order. -/
theorem c5_delivery_amended (subs : List Subscriber) :
    emitRun subs =
      ((subs.takeWhile fun h => !h.throws).map Subscriber.id ++
        (((subs.dropWhile fun h => !h.throws).head?.map Subscriber.id).toList),
       subs.any Subscriber.throws) := by
  induction subs with
  | nil => rfl
  | cons h rest ih =>
    by_cases ht : h.throws
    · simp [emitRun, ht, List.takeWhile, List.dropWhile]
    · simp [emitRun, ht, List.takeWhile, List.dropWhile, ih]

/-! ## C6 — code-fence tolerance of the parsers -/

theorem dropWhile_append_nil {α : Type} (q : α → Bool) (l₁ l₂ : List α)
    (h : l₁.dropWhile q = []) : (l₁ ++ l₂).dropWhile q = l₂.dropWhile q := by
  induction l₁ with
  | nil => rfl
  | cons x xs ih =>
    rw [List.dropWhile_cons] at h
    cases hq : q x with
    | true =>
      rw [hq, if_pos rfl] at h
      rw [List.cons_append, List.dropWhile_cons, hq, if_pos rfl]
      exact ih h
    | false => rw [hq] at h; simp at h

theorem dropWhile_append_cons {α : Type} (q : α → Bool) (l₁ l₂ : List α) (d : α)
    (ds : List α) (h : l₁.dropWhile q = d :: ds) :
    (l₁ ++ l₂).dropWhile q = (d :: ds) ++ l₂ := by
  induction l₁ with
  | nil => simp [List.dropWhile] at h
  | cons x xs ih =>
    rw [List.dropWhile_cons] at h
    cases hq : q x with
    | true =>
      rw [hq, if_pos rfl] at h
      rw [List.cons_append, List.dropWhile_cons, hq, if_pos rfl]
      exact ih h
    | false =>
      rw [hq] at h
      simp only [Bool.false_eq_true, if_false] at h
      cases h
      rw [List.cons_append, List.dropWhile_cons, hq]
      simp

theorem parseJsonValue_backtick (f : Nat) (rest : List Char) :
    parseJsonValue f ('`' :: rest) = none := by
  cases f with
  | zero => rfl
  | succ n => rfl

theorem jsonParse_backtick (s : String) (rest : List Char)
    (h : s.toList = '`' :: rest) : jsonParse s = none := by
  unfold jsonParse
  rw [h, parseJsonValue_backtick]

theorem fenceWrap_toList (p : String) :
    (fenceWrap p).toList =
      '`' :: '`' :: '`' :: 'j' :: 's' :: 'o' :: 'n' :: '\n' ::
        (p.toList ++ ['\n', '`', '`', '`']) := rfl

theorem stripTrailFence_append_ticks (m : List Char) :
    stripTrailFence (m ++ ['\n', '`', '`', '`']) =
      (m.reverse.dropWhile isJsSpace).reverse := by
  unfold stripTrailFence
  rw [List.reverse_append]
  rfl

theorem jsTrim_wrap (p : String) :
    jsTrim ((fenceWrap p).toList) = (fenceWrap p).toList := by
  rw [fenceWrap_toList]
  unfold jsTrim
  rw [List.dropWhile_cons]
  simp only [show isJsSpace '`' = false from rfl, Bool.false_eq_true, if_false]
  rw [show ('`' :: '`' :: '`' :: 'j' :: 's' :: 'o' :: 'n' :: '\n' ::
      (p.toList ++ ['\n', '`', '`', '`'])) =
      ('`' :: '`' :: '`' :: 'j' :: 's' :: 'o' :: 'n' :: '\n' :: p.toList) ++
        ['\n', '`', '`', '`'] by simp]
  rw [List.reverse_append]
  rw [show (['\n', '`', '`', '`'] : List Char).reverse = '`' :: '`' :: '`' :: ['\n'] from rfl]
  rw [List.cons_append, List.dropWhile_cons]
  simp only [show isJsSpace '`' = false from rfl, Bool.false_eq_true, if_false]
  simp [List.reverse_append]

/-- The heart of the fence-tolerance fact: stripping the fences off the
wrapped payload gives the same string the unwrapped payload is reduced
to, provided the payload does not itself begin or end with a fence
(formally: the two strips leave its trim unchanged). -/
theorem fenceStrip_wrap (p : String)
    (h1 : stripLeadFence (jsTrim p.toList) = jsTrim p.toList)
    (h2 : stripTrailFence (jsTrim p.toList) = jsTrim p.toList) :
    fenceStrip (fenceWrap p) = fenceStrip p := by
  unfold fenceStrip
  rw [jsTrim_wrap]
  have hLead : stripLeadFence ((fenceWrap p).toList) =
      (p.toList ++ ['\n', '`', '`', '`']).dropWhile isJsSpace := by
    rw [fenceWrap_toList]; rfl
  rw [hLead]
  cases hdp : p.toList.dropWhile isJsSpace with
  | nil =>
    rw [dropWhile_append_nil _ _ _ hdp]
    have hjt : jsTrim p.toList = [] := by
      unfold jsTrim
      rw [hdp]
      rfl
    rw [hjt] at h1 h2 ⊢
    rfl
  | cons d ds =>
    rw [dropWhile_append_cons _ _ _ _ _ hdp]
    rw [stripTrailFence_append_ticks]
    have hjt : jsTrim p.toList = ((d :: ds).reverse.dropWhile isJsSpace).reverse := by
      unfold jsTrim
      rw [hdp]
    rw [h1, h2, hjt]

/-- C6 counterexample: the analyzer parser does not strip Markdown code
fences.  The payload `{"complexity":0.9,"summary":"s"}` parses to
complexity 0.9, but the same payload wrapped in a ```` ```json ````
fence falls back to the default complexity 0.5 — a different typed
record, refuting the claim for the analyzer (and likewise the planner)
parser. -/
theorem c6_fence_counterexample :
    (parseAnalyzerOutput "\x7b\"complexity\":0.9,\"summary\":\"s\"\x7d").complexity =
        ⟨9, 10⟩ ∧
    (parseAnalyzerOutput
        (fenceWrap "\x7b\"complexity\":0.9,\"summary\":\"s\"\x7d")).complexity =
        ⟨5, 10⟩ ∧
    (⟨9, 10⟩ : JNum).toRat ≠ (⟨5, 10⟩ : JNum).toRat := by
  refine ⟨by decide, by decide, ?_⟩
  unfold JNum.toRat
  norm_num

/-- C6 (amended): only the steward and oracle parsers tolerate Markdown
code-fence wrapping — for any payload that does not itself begin or end
with a fence they give the same record fenced or unfenced; the analyzer
and planner parsers do not strip fences, so a fenced payload always
lands in their parse-failure fallback. -/
theorem c6_parser_fence_amended (p : String)
    (h1 : stripLeadFence (jsTrim p.toList) = jsTrim p.toList)
    (h2 : stripTrailFence (jsTrim p.toList) = jsTrim p.toList) :
    parseStewardOutput (fenceWrap p) = parseStewardOutput p ∧
    parseOracleOutput (fenceWrap p) = parseOracleOutput p ∧
    parseAnalyzerOutput (fenceWrap p) = analyzerFallback (fenceWrap p) ∧
    parsePlannerOutput (fenceWrap p) = .defaultSpec (fenceWrap p) := by
  have hfs := fenceStrip_wrap p h1 h2
  refine ⟨?_, ?_, ?_, ?_⟩
  · unfold parseStewardOutput
    rw [hfs]
  · unfold parseOracleOutput
    rw [hfs]
  · unfold parseAnalyzerOutput
    rw [jsonParse_backtick (fenceWrap p) _ (fenceWrap_toList p)]
  · unfold parsePlannerOutput
    rw [jsonParse_backtick (fenceWrap p) _ (fenceWrap_toList p)]

/-- Witness for C6 (amended) at the steward payload
`{"action":"escalate"}`. -/
theorem c6_parser_fence_amended_witness :
    (stripLeadFence (jsTrim ("\x7b\"action\":\"escalate\"\x7d").toList) =
        jsTrim ("\x7b\"action\":\"escalate\"\x7d").toList) ∧
    (parseStewardOutput (fenceWrap "\x7b\"action\":\"escalate\"\x7d") =
        parseStewardOutput "\x7b\"action\":\"escalate\"\x7d" ∧
      parseOracleOutput (fenceWrap "\x7b\"action\":\"escalate\"\x7d") =
        parseOracleOutput "\x7b\"action\":\"escalate\"\x7d" ∧
      parseAnalyzerOutput (fenceWrap "\x7b\"action\":\"escalate\"\x7d") =
        analyzerFallback (fenceWrap "\x7b\"action\":\"escalate\"\x7d") ∧
      parsePlannerOutput (fenceWrap "\x7b\"action\":\"escalate\"\x7d") =
        .defaultSpec (fenceWrap "\x7b\"action\":\"escalate\"\x7d")) :=
  ⟨by decide, c6_parser_fence_amended _ (by decide) (by decide)⟩

/-! ## C7 — complexity writes -/

/-- C7 counterexample: a task whose complexity is already `3/10` gets
`7/10` after a second `setComplexity` write — the write is not ignored,
the stored value is no longer the first one. -/
theorem c7_set_complexity_counterexample :
    (tmGet (setComplexity "t1"
        [("id1", ⟨"id1", "d", .pending, some (3/10), "t0"⟩)] "id1" (7/10)).1 "id1").map
      TaskDataM.complexity = some (some (7/10)) ∧
    some (some ((7 : Rat)/10)) ≠ some (some ((3 : Rat)/10)) := by
  constructor
  · rfl
  · simp only [ne_eq, Option.some.injEq]
    norm_num

/-- C7 (amended): `TaskManager.setComplexity` overwrites — after writing
`c2` to an existing task the stored complexity is `c2` (last write
wins), every other task is untouched, and the updated record is
persisted under `tasks/<id>`. -/
theorem c7_set_complexity_amended (now : String) (tasks : List (String × TaskDataM))
    (id : String) (c2 : Rat) (t : TaskDataM) (h : tmGet tasks id = some t) :
    (tmGet (setComplexity now tasks id c2).1 id).map TaskDataM.complexity =
        some (some c2) ∧
    (∀ id', id' ≠ id →
      tmGet (setComplexity now tasks id c2).1 id' = tmGet tasks id') ∧
    (setComplexity now tasks id c2).2 =
      [("tasks/" ++ t.id, { t with complexity := some c2, updatedAt := now })] := by
  refine ⟨?_, ?_, ?_⟩
  · simp only [setComplexity, h]
    rw [tmGet_update_self tasks id t _ h]
    rfl
  · intro id' hid
    simp only [setComplexity, h]
    exact tmGet_update_other tasks id id' _ hid
  · simp [setComplexity, h]

/-- Witness for C7 (amended) at a concrete store. -/
theorem c7_set_complexity_amended_witness :
    (tmGet (setComplexity "t1"
        [("id1", ⟨"id1", "d", .pending, some (3/10), "t0"⟩)] "id1" (1/5)).1 "id1").map
      TaskDataM.complexity = some (some (1/5)) ∧
    (∀ id', id' ≠ "id1" →
      tmGet (setComplexity "t1"
        [("id1", ⟨"id1", "d", .pending, some (3/10), "t0"⟩)] "id1" (1/5)).1 id' =
      tmGet [("id1", ⟨"id1", "d", .pending, some (3/10), "t0"⟩)] id') ∧
    (setComplexity "t1"
        [("id1", ⟨"id1", "d", .pending, some (3/10), "t0"⟩)] "id1" (1/5)).2 =
      [("tasks/id1", ⟨"id1", "d", .pending, some (1/5), "t1"⟩)] :=
  c7_set_complexity_amended "t1" [("id1", ⟨"id1", "d", .pending, some (3/10), "t0"⟩)]
    "id1" (1/5) ⟨"id1", "d", .pending, some (3/10), "t0"⟩ (by rfl)

/-! ## C9 — duplicate-setup filter -/

/-- C9 counterexample: with setup "install configure database" and the
subtask "install configure frontend", the claim's rule ("at least 2 of
S's non-trivial words appear") removes the subtask, but the source keeps
it — the code drops a subtask only when *all* of the setup's content
words appear (and the setup has at least two of them). -/
theorem c9_filter_counterexample :
    claimRemovesC9 ⟨"install configure database", none, true⟩
        ⟨"install configure frontend", some ["web/"], false⟩ = true ∧
    filterDuplicateSetupSubtask
        ⟨[⟨"install configure frontend", some ["web/"], false⟩], false,
          some ⟨"install configure database", none, true⟩⟩ =
      [⟨"install configure frontend", some ["web/"], false⟩] := by
  constructor
  · decide
  · decide

/-- C9 (amended): `filterDuplicateSetupSubtask` removes exactly those
subtasks whose trimmed case-insensitive description equals the setup's,
or for which the setup has at least 2 content words (length > 2) and
*every* one of them occurs in the subtask's description. -/
theorem c9_filter_amended (plan : DecompPlan) (setup : SubtaskDef)
    (hs : plan.setupTask = some setup) (s : SubtaskDef) (hmem : s ∈ plan.subtasks) :
    s ∈ filterDuplicateSetupSubtask plan ↔
      ¬ (jsLowerStr (jsTrimStr s.description) = jsLowerStr (jsTrimStr setup.description) ∨
         (2 ≤ (setupContentWords (jsLowerStr (jsTrimStr setup.description))).length ∧
          ∀ w ∈ setupContentWords (jsLowerStr (jsTrimStr setup.description)),
            strIncludes (jsLowerStr (jsTrimStr s.description)) w = true)) := by
  rw [← dupSetupKeep_iff]
  simp [filterDuplicateSetupSubtask, hs, List.mem_filter, hmem]

/-- Witness for C9 (amended): a subtask containing all three content
words of the setup is dropped. -/
theorem c9_filter_amended_witness :
    (⟨"please install and configure the database now", none, false⟩ : SubtaskDef) ∈
        filterDuplicateSetupSubtask
          ⟨[⟨"please install and configure the database now", none, false⟩], false,
            some ⟨"install configure database", none, true⟩⟩ ↔
      ¬ (jsLowerStr (jsTrimStr "please install and configure the database now") =
           jsLowerStr (jsTrimStr "install configure database") ∨
         (2 ≤ (setupContentWords (jsLowerStr (jsTrimStr "install configure database"))).length ∧
          ∀ w ∈ setupContentWords (jsLowerStr (jsTrimStr "install configure database")),
            strIncludes (jsLowerStr (jsTrimStr "please install and configure the database now"))
              w = true)) :=
  c9_filter_amended
    ⟨[⟨"please install and configure the database now", none, false⟩], false,
      some ⟨"install configure database", none, true⟩⟩
    ⟨"install configure database", none, true⟩ (by rfl)
    ⟨"please install and configure the database now", none, false⟩ (by decide)


/-! ## C2 — stuck-loop detection -/

theorem turnStartState_recent (cfg : RtConfig) (turn : Nat) (st : RtState) :
    (turnStartState cfg turn st).recent = st.recent := by
  unfold turnStartState
  split <;> rfl

theorem postLLMState_recent (r : LLMResponse) (st : RtState) :
    (postLLMState r st).recent = st.recent := by
  unfold postLLMState
  cases r.content <;> dsimp only <;> split_ifs <;> rfl

theorem turnStartState_turnEvents (cfg : RtConfig) (turn : Nat) (st : RtState) :
    turnEvents (turnStartState cfg turn st) = turnEvents st + 1 := by
  unfold turnStartState
  split <;> simp [turnEvents, List.countP_append, List.countP_cons]

theorem postLLMState_turnEvents (r : LLMResponse) (st : RtState) :
    turnEvents (postLLMState r st) = turnEvents st := by
  unfold postLLMState
  cases r.content <;> dsimp only <;> split_ifs <;>
    simp [turnEvents, List.countP_append, List.countP_cons]

theorem executeToolCalls_recent (tn : List String) (te : LLMToolCall → ToolRun) :
    ∀ (calls : List LLMToolCall) (st : RtState),
      (executeToolCalls tn te calls st).2.recent = st.recent := by
  intro calls
  induction calls with
  | nil => intro st; rfl
  | cons tc rest ih =>
    intro st
    unfold executeToolCalls
    repeat' split
    all_goals first | rfl | exact ih _

theorem executeToolCalls_turnEvents (tn : List String) (te : LLMToolCall → ToolRun) :
    ∀ (calls : List LLMToolCall) (st : RtState),
      turnEvents (executeToolCalls tn te calls st).2 = turnEvents st := by
  intro calls
  induction calls with
  | nil => intro st; rfl
  | cons tc rest ih =>
    intro st
    unfold executeToolCalls
    repeat' split
    all_goals
      first
      | (rw [ih]; simp [turnEvents, List.countP_append, List.countP_cons])
      | simp [turnEvents, List.countP_append, List.countP_cons]

theorem executeToolCalls_no_completion (tn : List String) (te : LLMToolCall → ToolRun) :
    ∀ (calls : List LLMToolCall) (st : RtState),
      (∀ tc ∈ calls, callCompletion tn te tc = none) →
      (executeToolCalls tn te calls st).1 = none := by
  intro calls
  induction calls with
  | nil => intro st _; rfl
  | cons tc rest ih =>
    intro st hnc
    have hhead := hnc tc (List.mem_cons_self _ _)
    have htail : ∀ tc' ∈ rest, callCompletion tn te tc' = none :=
      fun tc' h => hnc tc' (List.mem_cons_of_mem _ h)
    unfold executeToolCalls
    by_cases hmem : tn.contains tc.name = true
    · simp only [hmem, if_true]
      cases hte : te tc with
      | ok content isError =>
        by_cases hname : tc.name = "complete_task"
        · have hpc : parseCompletion content = none := by
            unfold callCompletion at hhead
            rw [hname] at hhead
            rw [hname] at hmem
            simp only [hmem] at hhead
            rw [hte] at hhead
            simpa using hhead
          simp only [if_pos hname, hpc]
          exact ih _ htail
        · simp only [if_neg hname]
          exact ih _ htail
      | thrown msg => exact ih _ htail
    · simp only [hmem, if_false]
      exact ih _ htail

theorem pushKey_length_le (r : List String) (k : String) (h : r.length ≤ 3) :
    (pushKey r k).length ≤ 3 := by
  unfold pushKey MAX_CONSECUTIVE_DUPLICATES
  dsimp only
  split_ifs with hc
  · simpa using h
  · simp at hc ⊢
    omega

theorem stuck_after_three (r : List String) (k : String) (h : r.length ≤ 3) :
    (decide (MAX_CONSECUTIVE_DUPLICATES ≤
        (pushKey (pushKey (pushKey r k) k) k).length) &&
      allEqHead (pushKey (pushKey (pushKey r k) k) k)) = true := by
  rcases r with _ | ⟨a, _ | ⟨b, _ | ⟨c, _ | ⟨d, tl⟩⟩⟩⟩
  · simp [pushKey, MAX_CONSECUTIVE_DUPLICATES, allEqHead]
  · simp [pushKey, MAX_CONSECUTIVE_DUPLICATES, allEqHead]
  · simp [pushKey, MAX_CONSECUTIVE_DUPLICATES, allEqHead]
  · simp [pushKey, MAX_CONSECUTIVE_DUPLICATES, allEqHead]
  · simp at h

theorem stuck_state_recent (cfg : RtConfig) (turn : Nat) (r : LLMResponse)
    (st : RtState) (tn : List String) (te : LLMToolCall → ToolRun) :
    ((executeToolCalls tn te r.toolCalls
        {postLLMState r (turnStartState cfg turn st) with
          recent := (isStuckLoopF (postLLMState r
            (turnStartState cfg turn st)).recent r.toolCalls).2}).2).recent =
      pushKey st.recent (seqKey r.toolCalls) := by
  rw [executeToolCalls_recent]
  show pushKey (postLLMState r (turnStartState cfg turn st)).recent
    (seqKey r.toolCalls) = _
  rw [postLLMState_recent, turnStartState_recent]

theorem stuck_state_turnEvents (cfg : RtConfig) (turn : Nat) (r : LLMResponse)
    (st : RtState) (tn : List String) (te : LLMToolCall → ToolRun) :
    turnEvents ((executeToolCalls tn te r.toolCalls
        {postLLMState r (turnStartState cfg turn st) with
          recent := (isStuckLoopF (postLLMState r
            (turnStartState cfg turn st)).recent r.toolCalls).2}).2) =
      turnEvents st + 1 := by
  rw [executeToolCalls_turnEvents]
  show turnEvents (postLLMState r (turnStartState cfg turn st)) = _
  rw [postLLMState_turnEvents, turnStartState_turnEvents]

theorem stuck_halt_turnEvents (cfg : RtConfig) (turn : Nat) (r : LLMResponse)
    (st : RtState) :
    turnEvents {postLLMState r (turnStartState cfg turn st) with
        recent := (isStuckLoopF (postLLMState r
          (turnStartState cfg turn st)).recent r.toolCalls).2} =
      turnEvents st + 1 := by
  show turnEvents (postLLMState r (turnStartState cfg turn st)) = _
  rw [postLLMState_turnEvents, turnStartState_turnEvents]

/-- One tool-calling turn of the loop under the C2 hypotheses. -/
theorem agentLoop_step (cfg : RtConfig) (llm : Nat → Except String LLMResponse)
    (toolExec : LLMToolCall → ToolRun) (abortAt : Nat → Bool) (fuel turn : Nat)
    (st : RtState) (r : LLMResponse)
    (ha : abortAt turn = false) (hl : llm turn = .ok r) (htc : r.toolCalls ≠ [])
    (hnc : ∀ tc ∈ r.toolCalls, callCompletion cfg.toolNames toolExec tc = none) :
    agentLoop cfg llm toolExec abortAt (fuel + 1) turn st =
      (let st2 := postLLMState r (turnStartState cfg turn st)
       let st3 : RtState := {st2 with recent := (isStuckLoopF st2.recent r.toolCalls).2}
       if (isStuckLoopF st2.recent r.toolCalls).1 then
         (buildResult cfg st3 .needs_review (.str stuckSummary) none none none none, st3)
       else
         agentLoop cfg llm toolExec abortAt fuel (turn + 1)
           (executeToolCalls cfg.toolNames toolExec r.toolCalls st3).2) := by
  have hie : r.toolCalls.isEmpty = false := by
    cases hrc : r.toolCalls with
    | nil => exact absurd hrc htc
    | cons a l => rfl
  rw [agentLoop]
  simp only [ha, Bool.false_eq_true, if_false, hl, hie]
  by_cases hstuck :
      (isStuckLoopF (postLLMState r (turnStartState cfg turn st)).recent r.toolCalls).1 = true
  · simp only [hstuck, if_true]
  · simp only [Bool.not_eq_true] at hstuck
    simp only [hstuck, Bool.false_eq_true, if_false]
    have hno := executeToolCalls_no_completion cfg.toolNames toolExec r.toolCalls
      {postLLMState r (turnStartState cfg turn st) with
        recent := (isStuckLoopF (postLLMState r (turnStartState cfg turn st)).recent r.toolCalls).2}
      hnc
    rcases hE : executeToolCalls cfg.toolNames toolExec r.toolCalls
      {postLLMState r (turnStartState cfg turn st) with
        recent := (isStuckLoopF (postLLMState r (turnStartState cfg turn st)).recent r.toolCalls).2}
      with ⟨pay, st4⟩
    rw [hE] at hno
    simp only at hno
    subst hno
    rfl

/-- A turn whose response carries no tool calls advances the loop
without touching the duplicate buffer. -/
theorem agentLoop_skip (cfg : RtConfig) (llm : Nat → Except String LLMResponse)
    (toolExec : LLMToolCall → ToolRun) (abortAt : Nat → Bool) (fuel turn : Nat)
    (st : RtState) (r : LLMResponse)
    (ha : abortAt turn = false) (hl : llm turn = .ok r) (he : r.toolCalls = []) :
    agentLoop cfg llm toolExec abortAt (fuel + 1) turn st =
      agentLoop cfg llm toolExec abortAt fuel (turn + 1)
        (postLLMState r (turnStartState cfg turn st)) := by
  rw [agentLoop]
  simp only [ha, Bool.false_eq_true, if_false, hl, he, List.isEmpty_nil, if_true]

/-- Zero or more consecutive no-tool-call turns: the loop reaches the
turn after them with the duplicate buffer unchanged. -/
theorem agentLoop_skip_to (cfg : RtConfig) (llm : Nat → Except String LLMResponse)
    (toolExec : LLMToolCall → ToolRun) (abortAt : Nat → Bool) :
    ∀ (d fuel turn : Nat) (st : RtState),
      (∀ u, turn ≤ u → u < turn + d → abortAt u = false) →
      (∀ u, turn ≤ u → u < turn + d → ∃ r, llm u = .ok r ∧ r.toolCalls = []) →
      ∃ st', agentLoop cfg llm toolExec abortAt (fuel + d) turn st =
          agentLoop cfg llm toolExec abortAt fuel (turn + d) st' ∧
        st'.recent = st.recent ∧ turnEvents st' = turnEvents st + d := by
  intro d
  induction d with
  | zero => exact fun fuel turn st _ _ => ⟨st, rfl, rfl, rfl⟩
  | succ d ih =>
    intro fuel turn st hab hok
    obtain ⟨r, hl, he⟩ := hok turn (Nat.le_refl _) (by omega)
    obtain ⟨st', heq, hrec, hev⟩ := ih fuel (turn + 1)
      (postLLMState r (turnStartState cfg turn st))
      (fun u h1 h2 => hab u (by omega) (by omega))
      (fun u h1 h2 => hok u (by omega) (by omega))
    refine ⟨st', ?_, ?_, ?_⟩
    · rw [show fuel + (d + 1) = (fuel + d) + 1 from rfl,
        agentLoop_skip cfg llm toolExec abortAt (fuel + d) turn st r
          (hab turn (Nat.le_refl _) (by omega)) hl he,
        show turn + (d + 1) = (turn + 1) + d from by omega]
      exact heq
    · rw [hrec, postLLMState_recent, turnStartState_recent]
    · rw [hev, postLLMState_turnEvents, turnStartState_turnEvents]
      omega

/-- One tool-calling turn: either the detection fires and the loop halts
with the stuck summary now, or the loop advances with the turn's
sequence key pushed onto the buffer. -/
theorem agentLoop_tool_turn (cfg : RtConfig) (llm : Nat → Except String LLMResponse)
    (toolExec : LLMToolCall → ToolRun) (abortAt : Nat → Bool) (fuel turn : Nat)
    (st : RtState) (r : LLMResponse)
    (ha : abortAt turn = false) (hl : llm turn = .ok r) (htc : r.toolCalls ≠ [])
    (hnc : ∀ tc ∈ r.toolCalls, callCompletion cfg.toolNames toolExec tc = none) :
    (∃ st', agentLoop cfg llm toolExec abortAt (fuel + 1) turn st =
        agentLoop cfg llm toolExec abortAt fuel (turn + 1) st' ∧
      st'.recent = pushKey st.recent (seqKey r.toolCalls) ∧
      turnEvents st' = turnEvents st + 1) ∨
    ((agentLoop cfg llm toolExec abortAt (fuel + 1) turn st).1.status = .needs_review ∧
      (agentLoop cfg llm toolExec abortAt (fuel + 1) turn st).1.artifact.content =
        .str stuckSummary ∧
      turnEvents (agentLoop cfg llm toolExec abortAt (fuel + 1) turn st).2 =
        turnEvents st + 1) := by
  rw [agentLoop_step cfg llm toolExec abortAt fuel turn st r ha hl htc hnc]
  dsimp only
  by_cases hs : (isStuckLoopF (postLLMState r
      (turnStartState cfg turn st)).recent r.toolCalls).1 = true
  · rw [if_pos hs]
    right
    exact ⟨rfl, rfl, stuck_halt_turnEvents cfg turn r st⟩
  · rw [if_neg hs]
    left
    exact ⟨_, rfl, stuck_state_recent cfg turn r st _ _,
      stuck_state_turnEvents cfg turn r st _ _⟩

/-- The third push of the same key onto a buffer that already holds two
copies fires the stuck detection. -/
theorem agentLoop_stuck_fire (cfg : RtConfig) (llm : Nat → Except String LLMResponse)
    (toolExec : LLMToolCall → ToolRun) (abortAt : Nat → Bool) (fuel turn : Nat)
    (st : RtState) (r : LLMResponse) (base : List String) (k : String)
    (ha : abortAt turn = false) (hl : llm turn = .ok r)
    (hrec : st.recent = pushKey (pushKey base k) k) (hbase : base.length ≤ 3)
    (hkey : seqKey r.toolCalls = k) (htc : r.toolCalls ≠ [])
    (hnc : ∀ tc ∈ r.toolCalls, callCompletion cfg.toolNames toolExec tc = none) :
    (agentLoop cfg llm toolExec abortAt (fuel + 1) turn st).1.status = .needs_review ∧
    (agentLoop cfg llm toolExec abortAt (fuel + 1) turn st).1.artifact.content =
      .str stuckSummary ∧
    turnEvents (agentLoop cfg llm toolExec abortAt (fuel + 1) turn st).2 =
      turnEvents st + 1 := by
  rw [agentLoop_step cfg llm toolExec abortAt fuel turn st r ha hl htc hnc]
  dsimp only
  have hs : (isStuckLoopF (postLLMState r
      (turnStartState cfg turn st)).recent r.toolCalls).1 = true := by
    show (decide (MAX_CONSECUTIVE_DUPLICATES ≤
        (pushKey (postLLMState r (turnStartState cfg turn st)).recent
          (seqKey r.toolCalls)).length) &&
      allEqHead (pushKey (postLLMState r (turnStartState cfg turn st)).recent
        (seqKey r.toolCalls))) = true
    rw [postLLMState_recent, turnStartState_recent, hrec, hkey]
    exact stuck_after_three base k hbase
  rw [if_pos hs]
  exact ⟨rfl, rfl, stuck_halt_turnEvents cfg turn r st⟩

/-- C2: if the LLM issues the same tool-call sequence `tcs` (same names
and argument payloads, in the same order — content, token usage and stop
reason free to vary) on three consecutive tool-calling turns, at
`turn + d1`, `turn + d1 + d2 + 1` and `turn + d1 + d2 + d3 + 2`, with the
turns in between carrying no tool calls, and none of those calls is a
well-formed `complete_task`, then the agent terminates with
`needs_review`, its summary is the stuck-loop message (containing
"stuck"), and only the turns up to the detection are consumed — the
remaining `fuel` turns of the budget are never taken. -/
theorem c2_stuck_loop (cfg : RtConfig) (llm : Nat → Except String LLMResponse)
    (toolExec : LLMToolCall → ToolRun) (abortAt : Nat → Bool)
    (fuel d1 d2 d3 turn : Nat) (st : RtState) (tcs : List LLMToolCall)
    (hlen : st.recent.length ≤ 3)
    (hab : ∀ u, turn ≤ u → u ≤ turn + d1 + d2 + d3 + 2 → abortAt u = false)
    (hcall : ∀ u, (u = turn + d1 ∨ u = turn + d1 + d2 + 1 ∨
        u = turn + d1 + d2 + d3 + 2) → ∃ r, llm u = .ok r ∧ r.toolCalls = tcs)
    (hskip : ∀ u, turn ≤ u → u ≤ turn + d1 + d2 + d3 + 2 → u ≠ turn + d1 →
        u ≠ turn + d1 + d2 + 1 → u ≠ turn + d1 + d2 + d3 + 2 →
        ∃ r, llm u = .ok r ∧ r.toolCalls = [])
    (htc : tcs ≠ [])
    (hnc : ∀ tc ∈ tcs, callCompletion cfg.toolNames toolExec tc = none) :
    (agentLoop cfg llm toolExec abortAt (fuel + d1 + d2 + d3 + 3) turn st).1.status =
      .needs_review ∧
    (agentLoop cfg llm toolExec abortAt
        (fuel + d1 + d2 + d3 + 3) turn st).1.artifact.content = .str stuckSummary ∧
    strIncludes stuckSummary "stuck" = true ∧
    turnEvents (agentLoop cfg llm toolExec abortAt (fuel + d1 + d2 + d3 + 3) turn st).2 ≤
      turnEvents st + (d1 + d2 + d3 + 3) := by
  have hk3 : strIncludes stuckSummary "stuck" = true := by decide
  obtain ⟨st1, heq1, hrec1, hev1⟩ :=
    agentLoop_skip_to cfg llm toolExec abortAt d1 ((fuel + d2 + d3 + 2) + 1) turn st
      (fun u h1 h2 => hab u h1 (by omega))
      (fun u h1 h2 => hskip u h1 (by omega) (by omega) (by omega) (by omega))
  rw [show fuel + d1 + d2 + d3 + 3 = ((fuel + d2 + d3 + 2) + 1) + d1 from by omega,
    heq1]
  obtain ⟨r1, hl1, hc1⟩ := hcall (turn + d1) (Or.inl rfl)
  have htc1 : r1.toolCalls ≠ [] := by rw [hc1]; exact htc
  have hnc1 : ∀ tc ∈ r1.toolCalls, callCompletion cfg.toolNames toolExec tc = none :=
    fun tc h => hnc tc (hc1 ▸ h)
  rcases agentLoop_tool_turn cfg llm toolExec abortAt (fuel + d2 + d3 + 2) (turn + d1)
      st1 r1 (hab _ (by omega) (by omega)) hl1 htc1 hnc1 with
    ⟨st2, heq2, hrec2, hev2⟩ | ⟨hA, hB, hC⟩
  · rw [heq2]
    have hrec2' : st2.recent = pushKey st.recent (seqKey tcs) := by
      rw [hrec2, hrec1, hc1]
    have hev2' : turnEvents st2 = turnEvents st + (d1 + 1) := by
      rw [hev2, hev1]; omega
    obtain ⟨st3, heq3, hrec3, hev3⟩ :=
      agentLoop_skip_to cfg llm toolExec abortAt d2 ((fuel + d3 + 1) + 1)
        ((turn + d1) + 1) st2
        (fun u h1 h2 => hab u (by omega) (by omega))
        (fun u h1 h2 => hskip u (by omega) (by omega) (by omega) (by omega) (by omega))
    rw [show fuel + d2 + d3 + 2 = ((fuel + d3 + 1) + 1) + d2 from by omega, heq3]
    obtain ⟨r2, hl2, hc2⟩ := hcall (((turn + d1) + 1) + d2) (Or.inr (Or.inl (by omega)))
    have htc2 : r2.toolCalls ≠ [] := by rw [hc2]; exact htc
    have hnc2 : ∀ tc ∈ r2.toolCalls, callCompletion cfg.toolNames toolExec tc = none :=
      fun tc h => hnc tc (hc2 ▸ h)
    rcases agentLoop_tool_turn cfg llm toolExec abortAt (fuel + d3 + 1)
        (((turn + d1) + 1) + d2) st3 r2 (hab _ (by omega) (by omega)) hl2 htc2 hnc2 with
      ⟨st4, heq4, hrec4, hev4⟩ | ⟨hA, hB, hC⟩
    · rw [heq4]
      have hrec4' : st4.recent =
          pushKey (pushKey st.recent (seqKey tcs)) (seqKey tcs) := by
        rw [hrec4, hrec3, hrec2', hc2]
      have hev4' : turnEvents st4 = turnEvents st + (d1 + d2 + 2) := by
        rw [hev4, hev3, hev2']; omega
      obtain ⟨st5, heq5, hrec5, hev5⟩ :=
        agentLoop_skip_to cfg llm toolExec abortAt d3 (fuel + 1)
          ((((turn + d1) + 1) + d2) + 1) st4
          (fun u h1 h2 => hab u (by omega) (by omega))
          (fun u h1 h2 =>
            hskip u (by omega) (by omega) (by omega) (by omega) (by omega))
      rw [show fuel + d3 + 1 = (fuel + 1) + d3 from by omega, heq5]
      obtain ⟨r3, hl3, hc3⟩ := hcall (((((turn + d1) + 1) + d2) + 1) + d3)
        (Or.inr (Or.inr (by omega)))
      have htc3 : r3.toolCalls ≠ [] := by rw [hc3]; exact htc
      have hnc3 : ∀ tc ∈ r3.toolCalls, callCompletion cfg.toolNames toolExec tc = none :=
        fun tc h => hnc tc (hc3 ▸ h)
      obtain ⟨hA, hB, hC⟩ := agentLoop_stuck_fire cfg llm toolExec abortAt fuel
        (((((turn + d1) + 1) + d2) + 1) + d3) st5 r3 st.recent (seqKey tcs)
        (hab _ (by omega) (by omega)) hl3 (by rw [hrec5, hrec4']) hlen
        (by rw [hc3]) htc3 hnc3
      exact ⟨hA, hB, hk3, by rw [hC, hev5, hev4']; omega⟩
    · exact ⟨hA, hB, hk3, by rw [hC, hev3, hev2']; omega⟩
  · exact ⟨hA, hB, hk3, by rw [hC, hev1]; omega⟩

/-- Witness for C2: the concrete run `c2Run2`, whose LLM issues the same
single `read_file` call on turns 2, 4 and 5 — with different content and
token usage each time, and plain no-tool-call replies on turns 1 and 3 —
halts with `needs_review`, the stuck summary, and at most 5 of its 10
turns consumed. -/
theorem c2_stuck_loop_witness :
    c2Run2.1.status = .needs_review ∧
    c2Run2.1.artifact.content = .str stuckSummary ∧
    strIncludes stuckSummary "stuck" = true ∧
    turnEvents c2Run2.2 ≤ 5 :=
  c2_stuck_loop c2Cfg c2Llm (fun _ => ToolRun.ok "const x = 1" false) (fun _ => false)
    2 1 1 0 1 ⟨[LLMMessage.system "sys", LLMMessage.user "task"], [], ⟨0, 0, 0⟩, []⟩
    [c2Call] (by decide) (fun _ _ _ => rfl)
    (fun u hu => by rcases hu with rfl | rfl | rfl <;> exact ⟨c2Resp2 _, rfl, rfl⟩)
    (fun u h1 h2 n1 n2 n3 => by
      have hu : u = 1 ∨ u = 3 := by omega
      rcases hu with rfl | rfl <;> exact ⟨c2Skip, rfl, rfl⟩)
    (List.cons_ne_nil _ _)
    (fun tc htc => by
      cases htc with
      | head => rfl
      | tail _ h => cases h)

/-! ## C8 — parallel-overlap downgrade to sequential execution -/

theorem nudgeStep_trace (od : String) (st : EngSt) :
    (nudgeStep od st).2.trace = st.trace := by
  rcases st with ⟨tr, nid, pn⟩
  cases pn <;> rfl

theorem childRun_not_failed (runTaskO : RunArgs → EngSt → WLite × EngSt)
    (hns : ∀ a s, (runTaskO a s).1.status ≠ WStatus.failed)
    (taskId desc : String) (idx total depth : Nat) (fs : Option (List String))
    (sk : Bool) (pc : String) (st : EngSt) :
    (childRun runTaskO taskId desc idx total depth fs sk pc st).1.status ≠
      WStatus.failed :=
  hns _ _

theorem childRun_trace (runTaskO : RunArgs → EngSt → WLite × EngSt)
    (hrt : ∀ a s, ∃ ex, ((runTaskO a s).2).trace = s.trace ++ ex)
    (taskId desc : String) (idx total depth : Nat) (fs : Option (List String))
    (sk : Bool) (pc : String) (st : EngSt) :
    ∃ mid, ((childRun runTaskO taskId desc idx total depth fs sk pc st).2).trace =
      st.trace ++ (PhEvent.subtaskStart taskId st.nextId desc idx total ::
        (mid ++ [PhEvent.subtaskComplete st.nextId
          (childRun runTaskO taskId desc idx total depth fs sk pc st).1.status])) := by
  obtain ⟨e2, he2⟩ := hrt ⟨desc, depth + 1, fs, sk, pc, st.nextId⟩
    (startState taskId desc idx total st)
  refine ⟨e2, ?_⟩
  simp only [childRun]
  rw [he2]
  simp [startState, List.append_assoc]

theorem seqStep_not_failed (runTaskO : RunArgs → EngSt → WLite × EngSt)
    (oversightO : Nat → EngSt → EngSt) (taskId od : String) (depth off total : Nat)
    (hns : ∀ a s, (runTaskO a s).1.status ≠ WStatus.failed)
    (sub : SubtaskDef) (i : Nat) (st : EngSt) :
    (seqStep runTaskO oversightO taskId od depth off total sub i st).1.status ≠
      WStatus.failed :=
  hns _ _

theorem seqStep_trace (runTaskO : RunArgs → EngSt → WLite × EngSt)
    (oversightO : Nat → EngSt → EngSt) (taskId od : String) (depth off total : Nat)
    (hrt : ∀ a s, ∃ ex, ((runTaskO a s).2).trace = s.trace ++ ex)
    (hov : ∀ i s, ∃ ex, (oversightO i s).trace = s.trace ++ ex)
    (sub : SubtaskDef) (i : Nat) (st : EngSt) :
    ∃ p sid mid,
      ((seqStep runTaskO oversightO taskId od depth off total sub i st).2).trace =
        st.trace ++ (p ++ PhEvent.subtaskStart taskId sid sub.description (i + off) total ::
          (mid ++ [PhEvent.subtaskComplete sid
            (seqStep runTaskO oversightO taskId od depth off total sub i st).1.status])) := by
  obtain ⟨e1, he1⟩ := hov i st
  obtain ⟨mid, hmid⟩ := childRun_trace runTaskO hrt taskId sub.description (i + off) total
    depth sub.fileScope sub.skipAnalysis (nudgeStep od (oversightO i st)).1
    (nudgeStep od (oversightO i st)).2
  refine ⟨e1, (nudgeStep od (oversightO i st)).2.nextId, mid, ?_⟩
  simp only [seqStep]
  rw [hmid, nudgeStep_trace, he1]
  simp [List.append_assoc]

theorem runSubtasksSeq_spec (runTaskO : RunArgs → EngSt → WLite × EngSt)
    (oversightO : Nat → EngSt → EngSt) (taskId od : String) (depth off total : Nat)
    (hrt : ∀ a s, ∃ ex, ((runTaskO a s).2).trace = s.trace ++ ex)
    (hns : ∀ a s, (runTaskO a s).1.status ≠ WStatus.failed)
    (hov : ∀ i s, ∃ ex, (oversightO i s).trace = s.trace ++ ex) :
    ∀ (subs : List SubtaskDef) (i : Nat) (st : EngSt),
      (runSubtasksSeq runTaskO oversightO taskId od depth off total subs i st).1.length
          = subs.length ∧
      (∀ r ∈ (runSubtasksSeq runTaskO oversightO taskId od depth off total subs i st).1,
          r.status ≠ WStatus.failed) ∧
      ∃ segs : List (List PhEvent),
        ((runSubtasksSeq runTaskO oversightO taskId od depth off total subs i st).2).trace
            = st.trace ++ segs.flatten ∧
        segs.length = subs.length ∧
        ∀ j s, subs[j]? = some s →
          ∃ p sid mid status, status ≠ WStatus.failed ∧
            segs[j]? = some (p ++ PhEvent.subtaskStart taskId sid s.description
              (i + j + off) total :: (mid ++ [PhEvent.subtaskComplete sid status])) := by
  intro subs
  induction subs with
  | nil =>
    intro i st
    refine ⟨by simp [runSubtasksSeq], by simp [runSubtasksSeq], [],
      by simp [runSubtasksSeq], rfl, ?_⟩
    intro j s hjs
    simp at hjs
  | cons sub rest ih =>
    intro i st
    have hnf := seqStep_not_failed runTaskO oversightO taskId od depth off total hns sub i st
    obtain ⟨p0, sid0, mid0, hseg0⟩ :=
      seqStep_trace runTaskO oversightO taskId od depth off total hrt hov sub i st
    obtain ⟨hL, hA, segs, hT, hSL, hIdx⟩ :=
      ih (i + 1) ((seqStep runTaskO oversightO taskId od depth off total sub i st).2)
    simp only [runSubtasksSeq]
    simp only [if_neg hnf]
    refine ⟨by simp [hL], ?_, (p0 ++ PhEvent.subtaskStart taskId sid0 sub.description
        (i + off) total :: (mid0 ++ [PhEvent.subtaskComplete sid0
          (seqStep runTaskO oversightO taskId od depth off total sub i st).1.status]))
        :: segs, ?_, by simp [hSL], ?_⟩
    · intro r hr
      rcases List.mem_cons.mp hr with h | h
      · rw [h]; exact hnf
      · exact hA r h
    · rw [hT, hseg0]
      simp [List.append_assoc]
    · intro j s hjs
      cases j with
      | zero =>
        simp only [List.getElem?_cons_zero, Option.some.injEq] at hjs
        subst hjs
        exact ⟨p0, sid0, mid0, _, hnf, by simp⟩
      | succ j =>
        simp only [List.getElem?_cons_succ] at hjs ⊢
        obtain ⟨p, sid, mid, status, hst, hseg⟩ := hIdx j s hjs
        refine ⟨p, sid, mid, status, hst, ?_⟩
        rw [show i + (j + 1) + off = i + 1 + j + off from by omega]
        exact hseg

theorem subtaskPhaseRun_seq_spec (runTaskO : RunArgs → EngSt → WLite × EngSt)
    (oversightO : Nat → EngSt → EngSt) (taskId od : String) (depth off total : Nat)
    (hrt : ∀ a s, ∃ ex, ((runTaskO a s).2).trace = s.trace ++ ex)
    (hns : ∀ a s, (runTaskO a s).1.status ≠ WStatus.failed)
    (hov : ∀ i s, ∃ ex, (oversightO i s).trace = s.trace ++ ex)
    (subs : List SubtaskDef) (st : EngSt) :
    ∃ (segs : List (List PhEvent)) (results : List WLite),
      (subtaskPhaseRun runTaskO oversightO taskId od depth off total false subs st).1 =
        PhaseOut.proceed results ∧
      results.length = subs.length ∧
      ((subtaskPhaseRun runTaskO oversightO taskId od depth off total false subs st).2).trace
          = st.trace ++
            (PhEvent.logMsg "The path forks — %d branches (sequential)" :: segs.flatten) ∧
      segs.length = subs.length ∧
      ∀ j s, subs[j]? = some s →
        ∃ p sid mid status, status ≠ WStatus.failed ∧
          segs[j]? = some (p ++ PhEvent.subtaskStart taskId sid s.description
            (j + off) total :: (mid ++ [PhEvent.subtaskComplete sid status])) := by
  obtain ⟨hL, hA, segs, hT, hSL, hIdx⟩ :=
    runSubtasksSeq_spec runTaskO oversightO taskId od depth off total hrt hns hov subs 0
      {st with trace := st.trace ++ [PhEvent.logMsg "The path forks — %d branches (sequential)"]}
  have hany : ((runSubtasksSeq runTaskO oversightO taskId od depth off total subs 0
      {st with trace := st.trace ++
        [PhEvent.logMsg "The path forks — %d branches (sequential)"]}).1.any
        fun r => r.status = WStatus.failed) = false := by
    rw [List.any_eq_false]
    intro r hr
    simpa using hA r hr
  have hbr : subtaskPhaseRun runTaskO oversightO taskId od depth off total false subs st =
      (PhaseOut.proceed (runSubtasksSeq runTaskO oversightO taskId od depth off total subs 0
          {st with trace := st.trace ++
            [PhEvent.logMsg "The path forks — %d branches (sequential)"]}).1,
        (runSubtasksSeq runTaskO oversightO taskId od depth off total subs 0
          {st with trace := st.trace ++
            [PhEvent.logMsg "The path forks — %d branches (sequential)"]}).2) := by
    simp only [subtaskPhaseRun]
    rw [if_neg Bool.false_ne_true, hany]
    rw [if_neg Bool.false_ne_true]
  refine ⟨segs, (runSubtasksSeq runTaskO oversightO taskId od depth off total subs 0
      {st with trace := st.trace ++
        [PhEvent.logMsg "The path forks — %d branches (sequential)"]}).1,
    by rw [hbr], by rw [hL], ?_, hSL, ?_⟩
  · rw [hbr, hT]
    simp
  · intro j s hjs
    obtain ⟨p, sid, mid, status, hst, hseg⟩ := hIdx j s hjs
    refine ⟨p, sid, mid, status, hst, ?_⟩
    rw [show j + off = 0 + j + off from by omega]
    exact hseg

theorem c8St2_trace (plan : DecompPlan) (st : EngSt) :
    ∃ pre0, (c8St2 plan st).trace = st.trace ++ pre0 ∧
      PhEvent.logMsg overlapDowngradeLog ∈ pre0 := by
  by_cases hflt : (filterDuplicateSetupSubtask plan).length < plan.subtasks.length
  · refine ⟨[PhEvent.logMsg "Filtered %d duplicate setup subtask(s)",
      PhEvent.logMsg overlapDowngradeLog], ?_, by simp⟩
    simp [c8St2, c8St1, hflt]
  · refine ⟨[PhEvent.logMsg overlapDowngradeLog], ?_, by simp⟩
    simp [c8St2, c8St1, hflt]

/-- C8 (amended): if a parallel plan's filtered subtasks have
overlapping file scopes, the engine logs the downgrade and runs every
filtered subtask sequentially in declared order — each one getting a
`subtask:start` at its declared position and a `subtask:complete` with
the same fresh id — provided the oracles only append events and no
child fails; the phase then proceeds with one result per subtask. -/
theorem c8_seq_downgrade_amended (runTaskO : RunArgs → EngSt → WLite × EngSt)
    (oversightO : Nat → EngSt → EngSt) (taskId od : String) (plan : DecompPlan)
    (depth : Nat) (st : EngSt)
    (hpar : plan.parallel = true)
    (hovl : haveOverlappingFileScopes (filterDuplicateSetupSubtask plan) = true)
    (hrt : ∀ a s, ∃ ex, ((runTaskO a s).2).trace = s.trace ++ ex)
    (hns : ∀ a s, (runTaskO a s).1.status ≠ WStatus.failed)
    (hov : ∀ i s, ∃ ex, (oversightO i s).trace = s.trace ++ ex) :
    ∃ (pre : List PhEvent) (segs : List (List PhEvent)) (results : List WLite),
      (subtaskPhase runTaskO oversightO taskId plan od depth st).1 =
        PhaseOut.proceed results ∧
      results.length = (filterDuplicateSetupSubtask plan).length ∧
      PhEvent.logMsg overlapDowngradeLog ∈ pre ∧
      ((subtaskPhase runTaskO oversightO taskId plan od depth st).2).trace =
        st.trace ++ (pre ++ segs.flatten) ∧
      segs.length = (filterDuplicateSetupSubtask plan).length ∧
      ∀ j s, (filterDuplicateSetupSubtask plan)[j]? = some s →
        ∃ p sid mid status, status ≠ WStatus.failed ∧
          segs[j]? = some (p ++ PhEvent.subtaskStart taskId sid s.description
            (j + (if plan.setupTask.isSome then 1 else 0))
            ((if plan.setupTask.isSome then 1 else 0) +
              (filterDuplicateSetupSubtask plan).length) ::
            (mid ++ [PhEvent.subtaskComplete sid status])) := by
  obtain ⟨pre0, hpre0, hmem⟩ := c8St2_trace plan st
  cases hsetup : plan.setupTask with
  | none =>
    have h1 : subtaskPhase runTaskO oversightO taskId plan od depth st =
        subtaskPhaseRun runTaskO oversightO taskId od depth 0
          (0 + (filterDuplicateSetupSubtask plan).length) false
          (filterDuplicateSetupSubtask plan) (c8St2 plan st) := by
      simp only [subtaskPhase, hsetup, hpar, hovl]
      rfl
    obtain ⟨segs, results, g1, g2, g3, g4, g5⟩ :=
      subtaskPhaseRun_seq_spec runTaskO oversightO taskId od depth 0
        (0 + (filterDuplicateSetupSubtask plan).length) hrt hns hov
        (filterDuplicateSetupSubtask plan) (c8St2 plan st)
    refine ⟨pre0 ++ [PhEvent.logMsg "The path forks — %d branches (sequential)"],
      segs, results, by rw [h1]; exact g1, g2, by simp [hmem], ?_, g4, ?_⟩
    · rw [h1, g3, hpre0]
      simp [List.append_assoc]
    · intro j s hjs
      obtain ⟨p, sid, mid, status, hst, hseg⟩ := g5 j s hjs
      exact ⟨p, sid, mid, status, hst, hseg⟩
  | some setup =>
    have h1 : subtaskPhase runTaskO oversightO taskId plan od depth st =
        subtaskPhaseRun runTaskO oversightO taskId od depth 1
          (1 + (filterDuplicateSetupSubtask plan).length) false
          (filterDuplicateSetupSubtask plan)
          (childRun runTaskO taskId setup.description 0
            (1 + (filterDuplicateSetupSubtask plan).length) depth setup.fileScope
            setup.skipAnalysis ("Setup task for: " ++ od) (c8StLog plan st)).2 := by
      simp only [subtaskPhase, hsetup, hpar, hovl]
      rw [if_neg (childRun_not_failed runTaskO hns _ _ _ _ _ _ _ _ _)]
      rfl
    obtain ⟨midS, hmidS⟩ := childRun_trace runTaskO hrt taskId setup.description 0
      (1 + (filterDuplicateSetupSubtask plan).length) depth setup.fileScope
      setup.skipAnalysis ("Setup task for: " ++ od) (c8StLog plan st)
    obtain ⟨segs, results, g1, g2, g3, g4, g5⟩ :=
      subtaskPhaseRun_seq_spec runTaskO oversightO taskId od depth 1
        (1 + (filterDuplicateSetupSubtask plan).length) hrt hns hov
        (filterDuplicateSetupSubtask plan)
        (childRun runTaskO taskId setup.description 0
          (1 + (filterDuplicateSetupSubtask plan).length) depth setup.fileScope
          setup.skipAnalysis ("Setup task for: " ++ od) (c8StLog plan st)).2
    refine ⟨pre0 ++ [PhEvent.logMsg "Running setup subtask before parallel work"] ++
        (PhEvent.subtaskStart taskId (c8StLog plan st).nextId setup.description 0
            (1 + (filterDuplicateSetupSubtask plan).length) ::
          (midS ++ [PhEvent.subtaskComplete (c8StLog plan st).nextId
            (childRun runTaskO taskId setup.description 0
              (1 + (filterDuplicateSetupSubtask plan).length) depth setup.fileScope
              setup.skipAnalysis ("Setup task for: " ++ od) (c8StLog plan st)).1.status])) ++
        [PhEvent.logMsg "The path forks — %d branches (sequential)"],
      segs, results, by rw [h1]; exact g1, g2, by simp [hmem], ?_, g4, ?_⟩
    · rw [h1, g3, hmidS]
      have hlog : (c8StLog plan st).trace = (c8St2 plan st).trace ++
          [PhEvent.logMsg "Running setup subtask before parallel work"] := rfl
      rw [hlog, hpre0]
      simp [List.append_assoc]
    · intro j s hjs
      obtain ⟨p, sid, mid, status, hst, hseg⟩ := g5 j s hjs
      exact ⟨p, sid, mid, status, hst, hseg⟩

/-- C8 (counterexample to the unconditional claim): for the parallel
plan `c8Plan` with nested file scopes, when the first subtask's child
run fails, the phase aborts and the second filtered subtask never
receives a `subtask:start` — a subtask is lost. -/
theorem c8_lost_subtask_counterexample :
    c8Plan.parallel = true ∧
    haveOverlappingFileScopes (filterDuplicateSetupSubtask c8Plan) = true ∧
    (⟨"second subtask", some ["src/a/b"], false⟩ : SubtaskDef) ∈
      filterDuplicateSetupSubtask c8Plan ∧
    ((subtaskPhase (fun _ s => (⟨WStatus.failed, []⟩, s)) (fun _ s => s) "task-1" c8Plan
        "desc" 0 ⟨[], 0, none⟩).2.trace.any (isStartOf "second subtask")) = false ∧
    (subtaskPhase (fun _ s => (⟨WStatus.failed, []⟩, s)) (fun _ s => s) "task-1" c8Plan
        "desc" 0 ⟨[], 0, none⟩).1 = PhaseOut.failedOut := by
  decide

/-- Witness for C8 (amended) at `c8Plan` with an all-completing child
oracle. -/
theorem c8_seq_downgrade_amended_witness :
    ∃ (pre : List PhEvent) (segs : List (List PhEvent)) (results : List WLite),
      (subtaskPhase (fun a s => (⟨WStatus.completed, [a.description]⟩, s)) (fun _ s => s)
          "task-1" c8Plan "desc" 0 ⟨[], 0, none⟩).1 = PhaseOut.proceed results ∧
      results.length = (filterDuplicateSetupSubtask c8Plan).length ∧
      PhEvent.logMsg overlapDowngradeLog ∈ pre ∧
      ((subtaskPhase (fun a s => (⟨WStatus.completed, [a.description]⟩, s)) (fun _ s => s)
          "task-1" c8Plan "desc" 0 ⟨[], 0, none⟩).2).trace =
        (⟨[], 0, none⟩ : EngSt).trace ++ (pre ++ segs.flatten) ∧
      segs.length = (filterDuplicateSetupSubtask c8Plan).length ∧
      ∀ j s, (filterDuplicateSetupSubtask c8Plan)[j]? = some s →
        ∃ p sid mid status, status ≠ WStatus.failed ∧
          segs[j]? = some (p ++ PhEvent.subtaskStart "task-1" sid s.description
            (j + (if c8Plan.setupTask.isSome then 1 else 0))
            ((if c8Plan.setupTask.isSome then 1 else 0) +
              (filterDuplicateSetupSubtask c8Plan).length) ::
            (mid ++ [PhEvent.subtaskComplete sid status])) :=
  c8_seq_downgrade_amended (fun a s => (⟨WStatus.completed, [a.description]⟩, s))
    (fun _ s => s) "task-1" "desc" c8Plan 0 ⟨[], 0, none⟩ rfl (by decide)
    (fun _ s => ⟨[], by simp⟩) (fun _ _ h => WStatus.noConfusion h)
    (fun _ s => ⟨[], by simp⟩)

/-! ## C10 — exit code ↔ isError for spawned commands -/

/-- C10: when `run_terminal_command` (not blocked, not rejected as
non-terminating) or `git_operations` spawns the child and returns
without throwing, the returned `isError` is true exactly when the exit
code is non-zero; and executing a tool call other than `complete_task`
can never finalize the agent loop — a failing command only surfaces as
an `isError` tool result. -/
theorem c10_exit_code_iff (shell : String → ShellRun) (aborted : Bool) (wd cmd : String)
    (cwdArg : Option String) (op : String) (gargs : Option String) (o o2 : ShellOutcome)
    (hb : isCommandBlocked cmd = none) (hnt : isCommandNonTerminating cmd = none)
    (hs : shell cmd = .ok o)
    (hg : shell (jsTrimStr ("git " ++ op ++ " " ++ gargs.getD "")) = .ok o2) :
    (∃ res, (runTerminalCommand shell aborted wd cmd cwdArg).1 = .ok res ∧
      (runTerminalCommand shell aborted wd cmd cwdArg).2 ≠ [] ∧
      (res.isError = true ↔ o.exitCode ≠ 0)) ∧
    (∃ res, (gitOperations shell aborted wd op gargs).1 = .ok res ∧
      (res.isError = true ↔ o2.exitCode ≠ 0)) ∧
    (∀ (toolNames : List String) (toolExec : LLMToolCall → ToolRun) (tc : LLMToolCall),
      tc.name ≠ "complete_task" → callCompletion toolNames toolExec tc = none) := by
  refine ⟨?_, ?_, ?_⟩
  · simp only [runTerminalCommand, hb, hnt, hs]
    exact ⟨_, rfl, by simp, by simp⟩
  · simp only [gitOperations, hg]
    exact ⟨_, rfl, by simp⟩
  · intro toolNames toolExec tc h
    simp [callCompletion, h]

/-- Witness for C10 on a command exiting 1. -/
theorem c10_exit_code_iff_witness :
    (∃ res, (runTerminalCommand (fun _ => .ok ⟨1, "out", "err"⟩) false "/w" "npm test" none).1 =
        .ok res ∧
      (runTerminalCommand (fun _ => .ok ⟨1, "out", "err"⟩) false "/w" "npm test" none).2 ≠ [] ∧
      (res.isError = true ↔ (⟨1, "out", "err"⟩ : ShellOutcome).exitCode ≠ 0)) ∧
    (∃ res, (gitOperations (fun _ => .ok ⟨1, "out", "err"⟩) false "/w" "status" none).1 =
        .ok res ∧
      (res.isError = true ↔ (⟨1, "out", "err"⟩ : ShellOutcome).exitCode ≠ 0)) ∧
    (∀ (toolNames : List String) (toolExec : LLMToolCall → ToolRun) (tc : LLMToolCall),
      tc.name ≠ "complete_task" → callCompletion toolNames toolExec tc = none) :=
  c10_exit_code_iff (fun _ => .ok ⟨1, "out", "err"⟩) false "/w" "npm test" none "status" none
    ⟨1, "out", "err"⟩ ⟨1, "out", "err"⟩ (by decide) (by decide) rfl rfl

/-! ## C4 — path safety of the file tools -/

theorem readFilesLoop_io_mem (fs : String → FsRead) (basePath : String) :
    ∀ (ps parts : List String) (total : Nat) (io : List String) (x : String),
      x ∈ (readFilesLoop fs basePath ps parts total io).2.2 →
      x ∈ io.reverse ∨ ∃ q ∈ ps, x = resolveAbs basePath q ∧
        pathGuardRejects (pathRelative basePath (resolveAbs basePath q)) = false := by
  intro ps
  induction ps with
  | nil =>
    intro parts total io x hx
    exact Or.inl hx
  | cons p rest ih =>
    intro parts total io x hx
    rw [readFilesLoop] at hx
    by_cases hbreak : READ_FILES_TOTAL ≤ total
    · rw [if_pos hbreak] at hx
      exact Or.inl hx
    · rw [if_neg hbreak] at hx
      by_cases h1 : strStartsWith (pathRelative basePath (resolveAbs basePath p)) ".." = true
      · rw [if_pos h1] at hx
        rcases ih _ _ _ _ hx with h | ⟨q, hq, hqx⟩
        · exact Or.inl h
        · exact Or.inr ⟨q, List.mem_cons_of_mem _ hq, hqx⟩
      · rw [if_neg h1] at hx
        by_cases h2 : isPathUnderRestricted (pathRelative basePath (resolveAbs basePath p)) = true
        · rw [if_pos h2] at hx
          rcases ih _ _ _ _ hx with h | ⟨q, hq, hqx⟩
          · exact Or.inl h
          · exact Or.inr ⟨q, List.mem_cons_of_mem _ hq, hqx⟩
        · rw [if_neg h2] at hx
          have hguard : pathGuardRejects (pathRelative basePath (resolveAbs basePath p)) = false := by
            simp only [pathGuardRejects, Bool.or_eq_false_iff]
            exact ⟨by simpa using h1, by simpa using h2⟩
          have hstep : ∀ (parts' : List String) (total' : Nat),
              x ∈ (readFilesLoop fs basePath rest parts' total'
                (resolveAbs basePath p :: io)).2.2 →
              x ∈ io.reverse ∨ ∃ q ∈ p :: rest, x = resolveAbs basePath q ∧
                pathGuardRejects (pathRelative basePath (resolveAbs basePath q)) = false := by
            intro parts' total' hmem
            rcases ih _ _ _ _ hmem with h | ⟨q, hq, hqx⟩
            · rw [List.reverse_cons] at h
              rcases List.mem_append.1 h with h | h
              · exact Or.inl h
              · rcases List.mem_singleton.1 h with rfl
                exact Or.inr ⟨p, List.mem_cons_self _ _, rfl, hguard⟩
            · exact Or.inr ⟨q, List.mem_cons_of_mem _ hq, hqx⟩
          cases hfs : fs (resolveAbs basePath p) with
          | ok content =>
            rw [hfs] at hx
            exact hstep _ _ hx
          | err msg =>
            rw [hfs] at hx
            exact hstep _ _ hx

/-- C4 counterexample: `read_files` with the escaping path `../escape`
performs no I/O but returns the batch with `isError = false` — the
per-path failure is only reported inline, refuting "every file tool
returns isError=true" for `read_files`. -/
theorem c4_path_counterexample :
    pathGuardRejects (pathRelative (resolveWd "/work")
        (resolveAbs (resolveWd "/work") "../escape")) = true ∧
    readFilesTool (fun _ => .err "unreachable") "/work" ["../escape"] =
      (.ok ⟨"--- ../escape ---\n(path outside working directory)", false⟩, []) := by
  constructor
  · decide
  · rfl

/-- C4 (amended): for any path whose resolution escapes the root or
reaches the reserved `.babylon` directory, `read_file`, `write_file`,
`list_directory` and `search_in_files` return `isError = true`, with no
filesystem I/O; `read_files` likewise performs no I/O on any offending
path of its batch, but reports those failures inline (its batch result
carries `isError = false`). -/
theorem c4_path_guard_amended (fs : String → FsRead) (fsw : String → String → FsWrite)
    (ls : String → Nat → FsRead) (search : String → String → Option String → Nat → String)
    (wd p content : String) (fileScope : Option (List String)) (sl el : Option Int)
    (maxDepthArg maxResultsArg : Option Int) (patternArg globArg : Option String)
    (pathsArg : List String)
    (hg : pathGuardRejects (pathRelative (resolveWd wd) (resolveAbs (resolveWd wd) p)) = true)
    (htrim : jsTrimStr p = p) (hpne : p ≠ "") :
    (∃ m, readFileTool fs wd p sl el = (.ok ⟨m, true⟩, [])) ∧
    (∃ m, writeFileTool fsw wd p content fileScope = (.ok ⟨m, true⟩, [], false)) ∧
    (∃ m, listDirectoryTool ls wd (some p) maxDepthArg = (.ok ⟨m, true⟩, [])) ∧
    (∃ m, searchInFilesTool search wd patternArg (some p) globArg maxResultsArg =
      (.ok ⟨m, true⟩, [])) ∧
    (∀ q ∈ pathsArg,
      pathGuardRejects (pathRelative (resolveWd wd) (resolveAbs (resolveWd wd) q)) = true →
      resolveAbs (resolveWd wd) q ∉ (readFilesTool fs wd pathsArg).2) := by
  have hcases := hg
  rw [pathGuardRejects, Bool.or_eq_true] at hcases
  refine ⟨?_, ?_, ?_, ?_, ?_⟩
  · by_cases h1 : strStartsWith (pathRelative (resolveWd wd) (resolveAbs (resolveWd wd) p)) ".." = true
    · exact ⟨"Path must stay under the working directory.", by simp [readFileTool, h1]⟩
    · have h2 : isPathUnderRestricted
          (pathRelative (resolveWd wd) (resolveAbs (resolveWd wd) p)) = true := by
        rcases hcases with h | h
        · exact absurd h h1
        · exact h
      exact ⟨"Access to this path is not allowed.", by simp [readFileTool, h1, h2]⟩
  · by_cases h1 : strStartsWith (pathRelative (resolveWd wd) (resolveAbs (resolveWd wd) p)) ".." = true
    · exact ⟨"Path must stay under the working directory.", by simp [writeFileTool, h1]⟩
    · have h2 : isPathUnderRestricted
          (pathRelative (resolveWd wd) (resolveAbs (resolveWd wd) p)) = true := by
        rcases hcases with h | h
        · exact absurd h h1
        · exact h
      exact ⟨"Access to this path is not allowed.", by simp [writeFileTool, h1, h2]⟩
  · by_cases h1 : strStartsWith (pathRelative (resolveWd wd) (resolveAbs (resolveWd wd) p)) ".." = true
    · exact ⟨"Path must stay under the working directory. Use '.' or a subpath (e.g. 'src'); do not use '..' or parent paths.", by simp [listDirectoryTool, h1]⟩
    · have h2 : isPathUnderRestricted
          (pathRelative (resolveWd wd) (resolveAbs (resolveWd wd) p)) = true := by
        rcases hcases with h | h
        · exact absurd h h1
        · exact h
      exact ⟨"Access to this path is not allowed.", by simp [listDirectoryTool, h1, h2]⟩
  · have hpath : (match (some p : Option String) with
        | some pp => if jsTrimStr pp = "" then "." else jsTrimStr pp
        | none => ".") = p := by
      simp [htrim, hpne]
    by_cases h1 : strStartsWith (pathRelative (resolveWd wd) (resolveAbs (resolveWd wd) p)) ".." = true
    · exact ⟨"Path must stay under the working directory.", by simp [searchInFilesTool, htrim, hpne, h1]⟩
    · have h2 : isPathUnderRestricted
          (pathRelative (resolveWd wd) (resolveAbs (resolveWd wd) p)) = true := by
        rcases hcases with h | h
        · exact absurd h h1
        · exact h
      exact ⟨"Access to this path is not allowed.", by simp [searchInFilesTool, htrim, hpne, h1, h2]⟩
  · intro q hq hqg hmem
    rw [readFilesTool] at hmem
    by_cases hempty : (pathsArg.take READ_FILES_MAX).isEmpty
    · rw [if_pos hempty] at hmem
      simp at hmem
    · rw [if_neg hempty] at hmem
      have := readFilesLoop_io_mem fs (resolveWd wd) (pathsArg.take READ_FILES_MAX) [] 0 []
        (resolveAbs (resolveWd wd) q) hmem
      rcases this with h | ⟨q', _, hx, hguard⟩
      · simp at h
      · rw [← hx] at hguard
        rw [hguard] at hqg
        exact absurd hqg (by simp)

/-- Witness for C4 (amended) at the escaping path `../evil`. -/
theorem c4_path_guard_amended_witness :
    (∃ m, readFileTool (fun _ => FsRead.err "unused") "/work" "../evil" none none =
      (.ok ⟨m, true⟩, [])) ∧
    (∃ m, writeFileTool (fun _ _ => FsWrite.err "unused") "/work" "../evil" "content" none =
      (.ok ⟨m, true⟩, [], false)) ∧
    (∃ m, listDirectoryTool (fun _ _ => FsRead.err "unused") "/work" (some "../evil") none =
      (.ok ⟨m, true⟩, [])) ∧
    (∃ m, searchInFilesTool (fun _ _ _ _ => "") "/work" none (some "../evil") none none =
      (.ok ⟨m, true⟩, [])) ∧
    (∀ q ∈ ["../evil"],
      pathGuardRejects (pathRelative (resolveWd "/work")
        (resolveAbs (resolveWd "/work") q)) = true →
      resolveAbs (resolveWd "/work") q ∉
        (readFilesTool (fun _ => FsRead.err "unused") "/work" ["../evil"]).2) :=
  c4_path_guard_amended (fun _ => FsRead.err "unused") (fun _ _ => FsWrite.err "unused")
    (fun _ _ => FsRead.err "unused") (fun _ _ _ _ => "") "/work" "../evil" "content"
    none none none none none none none ["../evil"] (by decide) (by decide) (by decide)

end Babylon

